import Mathlib

/-!
Verification development for the data-alchemist validation and rule-inference
engine.  The definitions below are a shallow embedding of the TypeScript
sources (`src/lib/validation.ts`, `src/lib/ai-engine.ts`,
`src/components/grid/DataGrid.tsx`): JavaScript strings are Lean `String`s,
JS numbers are `Int`/`ℚ`, `JSON.parse` is the fallible `jsonParse` returning
`Option Json` (a thrown exception is `none`, the surrounding try/catch is the
`Option` match), and the impure `Date.now()` is passed as an explicit `now`
argument.
-/

namespace Alchemist

/-! ## String utilities (JS `split`, `trim`, `toLowerCase`, `includes`) -/

/-- The JSON / JS whitespace characters relevant here (ASCII). -/
def jsSpace (c : Char) : Bool :=
  c = ' ' || c = '\t' || c = '\n' || c = '\r' || c = Char.ofNat 11 || c = Char.ofNat 12

/-- JS `String.prototype.split` with a one-character separator, on char lists.
`""` splits to `[[]]`, like in JS. -/
def splitCharAux (sep : Char) : List Char → List (List Char)
  | [] => [[]]
  | c :: t =>
    if c = sep then [] :: splitCharAux sep t
    else
      match splitCharAux sep t with
      | h :: r => (c :: h) :: r
      | [] => [[c]]

/-- JS `s.split(sep)` for a single-character separator. -/
def splitChar (sep : Char) (s : String) : List String :=
  (splitCharAux sep s.data).map String.mk

/-- JS `String.prototype.trim` (both-ends whitespace strip). -/
def trimStr (s : String) : String :=
  String.mk (((s.data.dropWhile jsSpace).reverse.dropWhile jsSpace).reverse)

/-- JS `String.prototype.toLowerCase` (ASCII range, which is all the code uses). -/
def lowerStr (s : String) : String :=
  String.mk (s.data.map Char.toLower)

/-- `split(',')` followed by `map(x => x.trim())`, the idiom used throughout
the sources for comma-separated list fields. -/
def splitTrim (s : String) : List String :=
  (splitChar ',' s).map trimStr

/-- JS `Array.prototype.join(sep)`. -/
def joinSep (sep : String) : List String → String
  | [] => ""
  | [x] => x
  | x :: y :: r => x ++ sep ++ joinSep sep (y :: r)

/-- Substring test over char lists (JS `String.prototype.includes`). -/
def hasSub (needle : List Char) : List Char → Bool
  | [] => needle.isEmpty
  | c :: t => needle.isPrefixOf (c :: t) || hasSub needle t

/-- JS `s.includes(needle)`. -/
def substrB (needle s : String) : Bool :=
  hasSub needle.data s.data

/-- UTF-16 lexicographic string comparison, the default JS
`Array.prototype.sort()` comparator on strings (code units coincide with
scalar values on the ASCII data the engine handles). -/
def charListLe : List Char → List Char → Bool
  | [], _ => true
  | _ :: _, [] => false
  | a :: as, b :: bs => if a < b then true else if b < a then false else charListLe as bs

/-- The relation sorted by in `RequiredSkills.split(',').map(trim).sort()`. -/
def strLeR (a b : String) : Prop := charListLe a.data b.data = true

instance : DecidableRel strLeR := fun a b => by unfold strLeR; infer_instance

/-! ## JSON values and `JSON.parse` -/

/-- A parsed JSON value. -/
inductive Json where
  | null
  | bool (b : Bool)
  | num (q : ℚ)
  | str (s : String)
  | arr (xs : List Json)
  | obj (kvs : List (String × Json))

/-- Digit run to a natural number. -/
def digitsToNat (l : List Char) : Nat :=
  l.foldl (fun a c => a * 10 + (c.toNat - '0'.toNat)) 0

/-- Hex digit value. -/
def hexVal (c : Char) : Nat :=
  if c.isDigit then c.toNat - '0'.toNat
  else if 'a' ≤ c ∧ c ≤ 'f' then c.toNat - 'a'.toNat + 10
  else if 'A' ≤ c ∧ c ≤ 'F' then c.toNat - 'A'.toNat + 10
  else 0

def isHexDigitB (c : Char) : Bool :=
  c.isDigit || ('a' ≤ c && c ≤ 'f') || ('A' ≤ c && c ≤ 'F')

/-- Body of a JSON string literal (after the opening quote): returns the
decoded characters and the input remaining after the closing quote. -/
def parseStrChars : List Char → Option (List Char × List Char)
  | [] => none
  | '"' :: r => some ([], r)
  | '\\' :: r =>
    match r with
    | [] => none
    | 'u' :: a :: b :: c :: d :: r3 =>
      if isHexDigitB a && isHexDigitB b && isHexDigitB c && isHexDigitB d then
        (parseStrChars r3).map (fun p =>
          (Char.ofNat (((hexVal a * 16 + hexVal b) * 16 + hexVal c) * 16 + hexVal d) :: p.1, p.2))
      else none
    | e :: r2 =>
      let esc : Option Char :=
        if e = '"' then some '"'
        else if e = '\\' then some '\\'
        else if e = '/' then some '/'
        else if e = 'b' then some (Char.ofNat 8)
        else if e = 'f' then some (Char.ofNat 12)
        else if e = 'n' then some '\n'
        else if e = 'r' then some '\r'
        else if e = 't' then some '\t'
        else none
      match esc with
      | some c => (parseStrChars r2).map (fun p => (c :: p.1, p.2))
      | none => none
  | c :: r =>
    if c.toNat < 32 then none
    else (parseStrChars r).map (fun p => (c :: p.1, p.2))

/-- Exponent part of a JSON number (optional). -/
def parseExpPart : List Char → Option (Int × List Char)
  | [] => some (0, [])
  | e :: rest =>
    if e = 'e' ∨ e = 'E' then
      let p : Int × List Char :=
        match rest with
        | '+' :: rr => (1, rr)
        | '-' :: rr => (-1, rr)
        | _ => (1, rest)
      let eds := p.2.takeWhile Char.isDigit
      if eds = [] then none
      else some (p.1 * (digitsToNat eds : Int), p.2.drop eds.length)
    else some (0, e :: rest)

/-- A JSON number per the RFC 8259 grammar (as enforced by `JSON.parse`):
optional minus, integer part without leading zeros, optional fraction and
exponent.  Integer-valued literals are built without rational division so
that concrete parses reduce definitionally. -/
def parseNum (l : List Char) : Option (Json × List Char) :=
  let sp : Int × List Char := match l with | '-' :: r => (-1, r) | _ => (1, l)
  match sp.2 with
  | [] => none
  | c :: _ =>
    if c.isDigit then
      let ds := sp.2.takeWhile Char.isDigit
      if 1 < ds.length ∧ ds.head? = some '0' then none
      else
        let r1 := sp.2.drop ds.length
        let fp : Option (List Char × List Char) :=
          match r1 with
          | '.' :: r =>
            let fds := r.takeWhile Char.isDigit
            if fds = [] then none else some (fds, r.drop fds.length)
          | _ => some ([], r1)
        match fp with
        | none => none
        | some (fds, r2) =>
          match parseExpPart r2 with
          | none => none
          | some (ex, r3) =>
            let mant : Int := sp.1 * (digitsToNat (ds ++ fds) : Int)
            let e10 : Int := ex - fds.length
            let q : ℚ :=
              if e10 = 0 then (mant : ℚ)
              else if 0 < e10 then ((mant * 10 ^ e10.toNat : Int) : ℚ)
              else (mant : ℚ) / ((10 : ℚ) ^ (-e10).toNat)
            some (.num q, r3)
    else none

mutual

/-- One JSON value (leading whitespace allowed), with fuel. -/
def parseVal : Nat → List Char → Option (Json × List Char)
  | 0, _ => none
  | Nat.succ fuel, l =>
    match l.dropWhile jsSpace with
    | [] => none
    | '[' :: r =>
      (match r.dropWhile jsSpace with
       | ']' :: r2 => some (.arr [], r2)
       | r1 => parseItems fuel r1 [])
    | '{' :: r =>
      (match r.dropWhile jsSpace with
       | '}' :: r2 => some (.obj [], r2)
       | r1 => parseFields fuel r1 [])
    | '"' :: r => (parseStrChars r).map (fun p => (.str (String.mk p.1), p.2))
    | 'n' :: r => if r.take 3 = ['u', 'l', 'l'] then some (.null, r.drop 3) else none
    | 't' :: r => if r.take 3 = ['r', 'u', 'e'] then some (.bool true, r.drop 3) else none
    | 'f' :: r => if r.take 4 = ['a', 'l', 's', 'e'] then some (.bool false, r.drop 4) else none
    | l1 => parseNum l1

/-- Array elements after `[` (first element onward). -/
def parseItems : Nat → List Char → List Json → Option (Json × List Char)
  | 0, _, _ => none
  | Nat.succ fuel, l, acc =>
    match parseVal fuel l with
    | none => none
    | some (v, r) =>
      match r.dropWhile jsSpace with
      | ',' :: r2 => parseItems fuel r2 (acc ++ [v])
      | ']' :: r2 => some (.arr (acc ++ [v]), r2)
      | _ => none

/-- Object members after `{` (first member onward). -/
def parseFields : Nat → List Char → List (String × Json) → Option (Json × List Char)
  | 0, _, _ => none
  | Nat.succ fuel, l, acc =>
    match l.dropWhile jsSpace with
    | '"' :: r =>
      (match parseStrChars r with
       | none => none
       | some (k, r2) =>
         match r2.dropWhile jsSpace with
         | ':' :: r3 =>
           (match parseVal fuel r3 with
            | none => none
            | some (v, r4) =>
              match r4.dropWhile jsSpace with
              | ',' :: r5 => parseFields fuel r5 (acc ++ [(String.mk k, v)])
              | '}' :: r5 => some (.obj (acc ++ [(String.mk k, v)]), r5)
              | _ => none)
         | _ => none)
    | _ => none

end

/-- `JSON.parse`: `none` models a thrown `SyntaxError`. -/
def jsonParse (s : String) : Option Json :=
  match parseVal (2 * s.data.length + 2) s.data with
  | some (v, rest) => if (rest.dropWhile jsSpace).isEmpty then some v else none
  | none => none

example : jsonParse "[1,2]" = some (.arr [.num 1, .num 2]) := rfl
example : jsonParse "[1,2,3,4]" = some (.arr [.num 1, .num 2, .num 3, .num 4]) := rfl
example : jsonParse "not json" = none := rfl
example : jsonParse "[1,2" = none := rfl
example : jsonParse " \x7b\x22a\x22: [true, null]\x7d " =
    some (.obj [("a", .arr [.bool true, .null])]) := rfl
example : splitTrim "a, b ,c" = ["a", "b", "c"] := rfl
example : splitTrim "" = [""] := rfl
example : lowerStr "Tasks T1 and T2" = "tasks t1 and t2" := rfl
example : substrB "together" "run together now" = true := rfl
example : joinSep "|" ["a", "b"] = "a|b" := rfl

/-! ## Entity model (`src/types`) -/

structure Client where
  ClientID : String
  ClientName : String
  PriorityLevel : Int
  RequestedTaskIDs : String
  GroupTag : String
  AttributesJSON : String
deriving DecidableEq

structure Worker where
  WorkerID : String
  WorkerName : String
  Skills : String
  AvailableSlots : String
  MaxLoadPerPhase : Int
  WorkerGroup : String
  QualificationLevel : Int
deriving DecidableEq

structure Task where
  TaskID : String
  TaskName : String
  Category : String
  Duration : Int
  RequiredSkills : String
  PreferredPhases : String
  MaxConcurrent : Int
deriving DecidableEq

inductive EntityKind where
  | client
  | worker
  | task
deriving DecidableEq

inductive ErrType where
  | error
  | warning
deriving DecidableEq

structure ValidationError where
  id : String
  type : ErrType
  message : String
  entity : EntityKind
  entityId : String
  field : Option String := none
  suggestion : Option String := none
deriving DecidableEq

/-! ## Validator (`src/lib/validation.ts`, class `DataValidator`)

Each private check method becomes a function of the collections it reads.
`forEach`/`push` loops become structural recursion appending per-record error
lists, preserving iteration order. -/

/-- Errors the missing-columns check emits for one client (fields iterated in
the order of `requiredClientFields`; a JS falsy test on `PriorityLevel`
means the number `0`). -/
def missingErrsFor (c : Client) : List ValidationError :=
  (if c.ClientID = "" then
    [{ id := "missing-" ++ c.ClientID ++ "-ClientID", type := .error,
       message := "Missing required field: ClientID", entity := .client,
       entityId := c.ClientID, field := some "ClientID",
       suggestion := some "Please provide a value for ClientID" }]
   else []) ++
  (if c.ClientName = "" then
    [{ id := "missing-" ++ c.ClientID ++ "-ClientName", type := .error,
       message := "Missing required field: ClientName", entity := .client,
       entityId := c.ClientID, field := some "ClientName",
       suggestion := some "Please provide a value for ClientName" }]
   else []) ++
  (if c.PriorityLevel = 0 then
    [{ id := "missing-" ++ c.ClientID ++ "-PriorityLevel", type := .error,
       message := "Missing required field: PriorityLevel", entity := .client,
       entityId := c.ClientID, field := some "PriorityLevel",
       suggestion := some "Please provide a value for PriorityLevel" }]
   else [])

def validateMissingColumns : List Client → List ValidationError
  | [] => []
  | c :: cs => missingErrsFor c ++ validateMissingColumns cs

/-- The duplicate error record for a repeated `ClientID`. -/
def dupClientErr (i : String) : ValidationError :=
  { id := "duplicate-client-" ++ i, type := .error,
    message := "Duplicate ClientID: " ++ i, entity := .client, entityId := i,
    suggestion := some "Ensure all ClientIDs are unique" }

def dupWorkerErr (i : String) : ValidationError :=
  { id := "duplicate-worker-" ++ i, type := .error,
    message := "Duplicate WorkerID: " ++ i, entity := .worker, entityId := i,
    suggestion := some "Ensure all WorkerIDs are unique" }

def dupTaskErr (i : String) : ValidationError :=
  { id := "duplicate-task-" ++ i, type := .error,
    message := "Duplicate TaskID: " ++ i, entity := .task, entityId := i,
    suggestion := some "Ensure all TaskIDs are unique" }

/-- The seen-`Set` loop shared by the three duplicate-ID passes: an error is
pushed for each record whose ID was already seen. -/
def dupAux (mkE : String → ValidationError) (getId : α → String) :
    List String → List α → List ValidationError
  | _, [] => []
  | seen, x :: xs =>
    (if getId x ∈ seen then [mkE (getId x)] else []) ++
      dupAux mkE getId (getId x :: seen) xs

def validateDuplicateIDs (cs : List Client) (ws : List Worker) (ts : List Task) :
    List ValidationError :=
  dupAux dupClientErr Client.ClientID [] cs ++
    dupAux dupWorkerErr Worker.WorkerID [] ws ++
    dupAux dupTaskErr Task.TaskID [] ts

/-- Is the parsed value an array whose members are all numbers? -/
def isNumArr : Json → Bool
  | .arr xs => xs.all fun j => match j with | .num _ => true | _ => false
  | _ => false

def malformedSlotsErr (w : Worker) : ValidationError :=
  { id := "malformed-slots-" ++ w.WorkerID, type := .error,
    message := "Malformed AvailableSlots: " ++ w.AvailableSlots,
    entity := .worker, entityId := w.WorkerID, field := some "AvailableSlots",
    suggestion := some "AvailableSlots should be an array of numbers, e.g., [1,2,3]" }

def invalidSlotsErr (w : Worker) : ValidationError :=
  { id := "invalid-slots-" ++ w.WorkerID, type := .error,
    message := "Invalid AvailableSlots format: " ++ w.AvailableSlots,
    entity := .worker, entityId := w.WorkerID, field := some "AvailableSlots",
    suggestion := some "AvailableSlots should be an array of numbers, e.g., [1,2,3]" }

/-- Malformed-list check for one worker: the `catch` branch is the `none`
case of `jsonParse`. -/
def malformedErrsFor (w : Worker) : List ValidationError :=
  match jsonParse w.AvailableSlots with
  | some j => if isNumArr j then [] else [malformedSlotsErr w]
  | none => [invalidSlotsErr w]

def validateMalformedLists : List Worker → List ValidationError
  | [] => []
  | w :: ws => malformedErrsFor w ++ validateMalformedLists ws

def rangeErrsForClient (c : Client) : List ValidationError :=
  if c.PriorityLevel < 1 ∨ 5 < c.PriorityLevel then
    [{ id := "priority-range-" ++ c.ClientID, type := .error,
       message := "PriorityLevel out of range: " ++ toString c.PriorityLevel,
       entity := .client, entityId := c.ClientID, field := some "PriorityLevel",
       suggestion := some "PriorityLevel must be between 1 and 5" }]
  else []

def rangeErrsForTask (t : Task) : List ValidationError :=
  if t.Duration < 1 then
    [{ id := "duration-range-" ++ t.TaskID, type := .error,
       message := "Duration must be at least 1: " ++ toString t.Duration,
       entity := .task, entityId := t.TaskID, field := some "Duration",
       suggestion := some "Duration should be a positive number" }]
  else []

def rangeClients : List Client → List ValidationError
  | [] => []
  | c :: cs => rangeErrsForClient c ++ rangeClients cs

def rangeTasks : List Task → List ValidationError
  | [] => []
  | t :: ts => rangeErrsForTask t ++ rangeTasks ts

def validateOutOfRangeValues (cs : List Client) (ts : List Task) : List ValidationError :=
  rangeClients cs ++ rangeTasks ts

def brokenJSONErrsFor (c : Client) : List ValidationError :=
  if c.AttributesJSON ≠ "" ∧ trimStr c.AttributesJSON ≠ "" then
    match jsonParse c.AttributesJSON with
    | some _ => []
    | none =>
      [{ id := "broken-json-" ++ c.ClientID, type := .error,
         message := "Invalid JSON in AttributesJSON", entity := .client,
         entityId := c.ClientID, field := some "AttributesJSON",
         suggestion := some "Please provide valid JSON format" }]
  else []

def validateBrokenJSON : List Client → List ValidationError
  | [] => []
  | c :: cs => brokenJSONErrsFor c ++ validateBrokenJSON cs

def unknownRefErr (cid tid : String) : ValidationError :=
  { id := "unknown-task-" ++ cid ++ "-" ++ tid, type := .error,
    message := "Unknown TaskID referenced: " ++ tid, entity := .client,
    entityId := cid, field := some "RequestedTaskIDs",
    suggestion := some ("TaskID " ++ tid ++ " does not exist in tasks data") }

def unknownErrsList (taskIds : List String) (cid : String) :
    List String → List ValidationError
  | [] => []
  | tid :: rest =>
    (if taskIds.contains tid then [] else [unknownRefErr cid tid]) ++
      unknownErrsList taskIds cid rest

/-- Per-client unknown-reference errors; a falsy (empty) `RequestedTaskIDs`
skips the client entirely. -/
def unknownErrsFor (taskIds : List String) (c : Client) : List ValidationError :=
  if c.RequestedTaskIDs = "" then []
  else unknownErrsList taskIds c.ClientID (splitTrim c.RequestedTaskIDs)

def unknownRefsAux (taskIds : List String) : List Client → List ValidationError
  | [] => []
  | c :: cs => unknownErrsFor taskIds c ++ unknownRefsAux taskIds cs

def validateUnknownReferences (cs : List Client) (ts : List Task) : List ValidationError :=
  unknownRefsAux (ts.map Task.TaskID) cs

/-- Placeholder in the source (`return []`). -/
def validateCircularCoRuns : List ValidationError := []

def overloadedErr (w : Worker) (len : Nat) : ValidationError :=
  { id := "overloaded-" ++ w.WorkerID, type := .warning,
    message := "Worker has more MaxLoadPerPhase (" ++ toString w.MaxLoadPerPhase ++
      ") than AvailableSlots (" ++ toString len ++ ")",
    entity := .worker, entityId := w.WorkerID,
    suggestion := some "Consider reducing MaxLoadPerPhase or increasing AvailableSlots" }

/-- Overload check for one worker: a parse failure or a non-array value emits
nothing (the `catch` skips, `Array.isArray` guards). -/
def overloadedErrsFor (w : Worker) : List ValidationError :=
  match jsonParse w.AvailableSlots with
  | some (.arr xs) =>
    if (xs.length : Int) < w.MaxLoadPerPhase then [overloadedErr w xs.length] else []
  | _ => []

def validateOverloadedWorkers : List Worker → List ValidationError
  | [] => []
  | w :: ws => overloadedErrsFor w ++ validateOverloadedWorkers ws

/-- Placeholder in the source (`return []`). -/
def validatePhaseSlotSaturation : List ValidationError := []

/-- The union of all workers' skills (set membership only, so a list). -/
def allWorkerSkills (ws : List Worker) : List String :=
  ws.foldl (fun acc w => acc ++ splitTrim w.Skills) []

def skillCovErr (t : Task) (skill : String) : ValidationError :=
  { id := "skill-coverage-" ++ t.TaskID ++ "-" ++ skill, type := .error,
    message := "No worker has required skill: " ++ skill, entity := .task,
    entityId := t.TaskID, field := some "RequiredSkills",
    suggestion := some ("Add workers with skill \x22" ++ skill ++ "\x22 or remove this skill requirement") }

def skillCovList (wskills : List String) (t : Task) : List String → List ValidationError
  | [] => []
  | sk :: rest =>
    (if wskills.contains sk then [] else [skillCovErr t sk]) ++
      skillCovList wskills t rest

def skillCovAux (wskills : List String) : List Task → List ValidationError
  | [] => []
  | t :: ts => skillCovList wskills t (splitTrim t.RequiredSkills) ++ skillCovAux wskills ts

def validateSkillCoverage (ws : List Worker) (ts : List Task) : List ValidationError :=
  skillCovAux (allWorkerSkills ws) ts

/-- Workers qualified for a task: skill set a superset of the task's
required skills. -/
def qualifiedWorkers (ws : List Worker) (t : Task) : List Worker :=
  ws.filter fun w =>
    (splitTrim t.RequiredSkills).all fun sk => (splitTrim w.Skills).contains sk

def maxConcErrsFor (ws : List Worker) (t : Task) : List ValidationError :=
  if ((qualifiedWorkers ws t).length : Int) < t.MaxConcurrent then
    [{ id := "max-concurrent-" ++ t.TaskID, type := .warning,
       message := "MaxConcurrent (" ++ toString t.MaxConcurrent ++
         ") exceeds qualified workers (" ++ toString (qualifiedWorkers ws t).length ++ ")",
       entity := .task, entityId := t.TaskID, field := some "MaxConcurrent",
       suggestion := some ("Consider reducing MaxConcurrent to " ++
         toString (qualifiedWorkers ws t).length ++ " or adding more qualified workers") }]
  else []

def maxConcAux (ws : List Worker) : List Task → List ValidationError
  | [] => []
  | t :: ts => maxConcErrsFor ws t ++ maxConcAux ws ts

def validateMaxConcurrency (ws : List Worker) (ts : List Task) : List ValidationError :=
  maxConcAux ws ts

/-- Placeholder in the source (`return []`). -/
def validateConflictingRules : List ValidationError := []

/-- `validateAll`: the fixed 12-stage pipeline, errors appended in check
order.  Total by construction: every fallible parse returns an `Option`
whose `none` case each check handles. -/
def validateAll (cs : List Client) (ws : List Worker) (ts : List Task) :
    List ValidationError :=
  validateMissingColumns cs ++
    validateDuplicateIDs cs ws ts ++
    validateMalformedLists ws ++
    validateOutOfRangeValues cs ts ++
    validateBrokenJSON cs ++
    validateUnknownReferences cs ts ++
    validateCircularCoRuns ++
    validateOverloadedWorkers ws ++
    validatePhaseSlotSaturation ++
    validateSkillCoverage ws ts ++
    validateMaxConcurrency ws ts ++
    validateConflictingRules

/-! ## Business rules and AI recommendations (`src/types`, `src/lib/ai-engine.ts`) -/

inductive RuleType where
  | coRun
  | slotRestriction
  | loadLimit
  | phaseWindow
  | patternMatch
  | precedenceOverride
deriving DecidableEq

/-- The `parameters` record of a `BusinessRule`, by rule kind produced by
`convertToRule`. -/
inductive RuleParams where
  | tasksOf (tasks : List String)
  | loadOf (maxSlotsPerPhase : Nat)
  | phaseOf (allowedPhases : String)
deriving DecidableEq

structure BusinessRule where
  id : String
  type : RuleType
  name : String
  description : String
  parameters : RuleParams
  priority : Nat
  active : Bool
deriving DecidableEq

/-- The `parameters` record of an `AIRuleRecommendation`, by recommendation
kind produced by `generateRuleRecommendations`. -/
inductive RecParams where
  | tasksOf (tasks : List String)
  | loadOf (workerGroup : String) (maxSlotsPerPhase : Int)
  | skillOf (skill : String)
deriving DecidableEq

structure AIRuleRecommendation where
  id : String
  type : RuleType
  description : String
  confidence : ℚ
  params : RecParams
  reasoning : String
deriving DecidableEq

/-! ### Ordered maps (JS `Map` preserves key insertion order) -/

/-- `if !m.has(k) m.set(k, []); m.get(k).push(v)` on an insertion-ordered
association list. -/
def addToGroups (k : String) (v : β) : List (String × List β) → List (String × List β)
  | [] => [(k, [v])]
  | (k', vs) :: rest =>
    if k' = k then (k', vs ++ [v]) :: rest else (k', vs) :: addToGroups k v rest

/-- Build the insertion-ordered grouping `Map` of a collection. -/
def foldGroups (key : α → String) (val : α → β) (l : List α) : List (String × List β) :=
  l.foldl (fun acc x => addToGroups (key x) (val x) acc) []

/-- Association-list lookup (JS `Map.get`). -/
def lookupG (k : String) : List (String × List β) → Option (List β)
  | [] => none
  | (k', vs) :: rest => if k' = k then some vs else lookupG k rest

/-- Counting `Map` increment (`m.set(k, (m.get(k) || 0) + 1)`). -/
def bump (k : String) : List (String × Nat) → List (String × Nat)
  | [] => [(k, 1)]
  | (k', n) :: rest => if k' = k then (k', n + 1) :: rest else (k', n) :: bump k rest

def lookupCount (k : String) : List (String × Nat) → Nat
  | [] => 0
  | (k', n) :: rest => if k' = k then n else lookupCount k rest

/-! ### `analyzeTaskPatterns` and friends -/

/-- `task.RequiredSkills.split(',').map(s => s.trim()).sort()`. -/
def sortedSkills (t : Task) : List String :=
  List.insertionSort strLeR (splitTrim t.RequiredSkills)

/-- `skills.join('|')`, the grouping key. -/
def skillKey (t : Task) : String :=
  joinSep "|" (sortedSkills t)

structure TaskGroup where
  tasks : List String
  commonSkills : List String
  confidence : ℚ

def taskGroupPairs (ts : List Task) : List (String × List String) :=
  foldGroups skillKey Task.TaskID ts

/-- Groups of tasks with identical sorted-trimmed skill lists; only groups
with at least two members are kept. -/
def analyzeTaskPatterns (ts : List Task) : List TaskGroup :=
  (taskGroupPairs ts).filterMap fun p =>
    if 1 < p.2.length then
      some { tasks := p.2, commonSkills := splitChar '|' p.1,
             confidence := min (9/10 : ℚ) (1/2 + (p.2.length : ℚ) * (1/10)) }
    else none

structure OverloadGroup where
  workerGroup : String
  suggestedLimit : Int
  confidence : ℚ

def maxIntList : List Int → Int
  | [] => 0
  | h :: t => t.foldl max h

def workerGroupPairs (ws : List Worker) : List (String × List Int) :=
  foldGroups Worker.WorkerGroup Worker.MaxLoadPerPhase ws

def analyzeWorkerOverload (ws : List Worker) : List OverloadGroup :=
  (workerGroupPairs ws).filterMap fun p =>
    let avg : ℚ := ((p.2.map (Int.cast : Int → ℚ)).sum) / (p.2.length : ℚ)
    if (avg * (3/2) : ℚ) < (maxIntList p.2 : ℚ) then
      some { workerGroup := p.1, suggestedLimit := ⌊avg * (6/5)⌋, confidence := 3/4 }
    else none

structure SkillGap where
  skill : String
  taskCount : Nat
  workerCount : Nat
  confidence : ℚ

def skillDemand (ts : List Task) : List (String × Nat) :=
  ts.foldl (fun acc t => (splitTrim t.RequiredSkills).foldl (fun a sk => bump sk a) acc) []

def skillSupply (ws : List Worker) : List (String × Nat) :=
  ws.foldl (fun acc w => (splitTrim w.Skills).foldl (fun a sk => bump sk a) acc) []

def analyzeSkillGaps (ts : List Task) (ws : List Worker) : List SkillGap :=
  (skillDemand ts).filterMap fun p =>
    let supply := lookupCount p.1 (skillSupply ws)
    if ((supply : ℚ) / (p.2 : ℚ)) < 1/2 then
      some { skill := p.1, taskCount := p.2, workerCount := supply,
             confidence := min (9/10 : ℚ) (1/2 + ((p.2 : ℚ) - (supply : ℚ)) * (1/10)) }
    else none

def mkCoRunRec (now : Nat) (g : TaskGroup) : AIRuleRecommendation :=
  { id := "corun-rec-" ++ toString now, type := .coRun,
    description := "Tasks " ++ joinSep ", " g.tasks ++ " often have similar requirements",
    confidence := g.confidence, params := .tasksOf g.tasks,
    reasoning := "These tasks share " ++ toString g.commonSkills.length ++
      " common skills and have similar durations" }

def mkLoadRec (now : Nat) (g : OverloadGroup) : AIRuleRecommendation :=
  { id := "loadlimit-rec-" ++ toString now, type := .loadLimit,
    description := "Limit " ++ g.workerGroup ++ " to " ++ toString g.suggestedLimit ++
      " tasks per phase",
    confidence := g.confidence, params := .loadOf g.workerGroup g.suggestedLimit,
    reasoning := "Workers in " ++ g.workerGroup ++
      " are currently overloaded based on capacity analysis" }

def mkSkillRec (now : Nat) (g : SkillGap) : AIRuleRecommendation :=
  { id := "skill-rec-" ++ toString now, type := .patternMatch,
    description := "Consider adding workers with " ++ g.skill ++ " skill",
    confidence := g.confidence, params := .skillOf g.skill,
    reasoning := toString g.taskCount ++ " tasks require " ++ g.skill ++
      " but only " ++ toString g.workerCount ++ " workers have this skill" }

/-- Descending order on confidence, the `(a, b) => b.confidence - a.confidence`
comparator. -/
def recGeR (a b : AIRuleRecommendation) : Prop := b.confidence ≤ a.confidence

instance : DecidableRel recGeR := fun a b => by unfold recGeR; infer_instance

/-- `generateRuleRecommendations` with `Date.now()` passed explicitly; the
client collection is held by the class but unread here. -/
def generateRuleRecommendations (now : Nat) (_cs : List Client) (ws : List Worker)
    (ts : List Task) : List AIRuleRecommendation :=
  let coRunRecs := (analyzeTaskPatterns ts).filterMap fun g =>
    if 1 < g.tasks.length then some (mkCoRunRec now g) else none
  let loadRecs := (analyzeWorkerOverload ws).map (mkLoadRec now)
  let skillRecs := (analyzeSkillGaps ts ws).map (mkSkillRec now)
  List.insertionSort recGeR (coRunRecs ++ loadRecs ++ skillRecs)

/-! ### `convertToRule`: the three regex matchers

Each JS regex is embedded as a leftmost-match scanner with the same
backtracking semantics on the inputs the grammar can meet (greedy `[s]?`,
`\s*` and character-class `+`, lazy `.*?` that cannot cross a line
terminator). -/

/-- The class `[a-zA-Z0-9,\s]` of `/task[s]?\s*([a-zA-Z0-9,\s]+)/i`. -/
def isTaskCap (c : Char) : Bool :=
  c.isAlpha || c.isDigit || c = ',' || jsSpace c

/-- `\s*([a-zA-Z0-9,\s]+)` with greedy backtracking: whitespace is also in
the capture class, so when nothing capturable follows the whitespace run the
last whitespace character itself is captured. -/
def taskCapAfter (rest : List Char) : Option (List Char) :=
  let w := rest.takeWhile jsSpace
  let r := rest.drop w.length
  match r with
  | c :: _ =>
    if isTaskCap c then some (r.takeWhile isTaskCap)
    else match w.getLast? with
      | some ch => some [ch]
      | none => none
  | [] =>
    match w.getLast? with
    | some ch => some [ch]
    | none => none

/-- Greedy `[s]?` after the literal `task`. -/
def taskOptS (rest : List Char) : Option (List Char) :=
  match rest with
  | 's' :: r2 =>
    (match taskCapAfter r2 with
     | some cap => some cap
     | none => taskCapAfter rest)
  | _ => taskCapAfter rest

/-- Leftmost match of `/task[s]?\s*([a-zA-Z0-9,\s]+)/i` on a lowercased
input, returning the capture group. -/
def taskScan : List Char → Option (List Char)
  | [] => none
  | c :: t =>
    if ['t', 'a', 's', 'k'].isPrefixOf (c :: t) then
      match taskOptS ((c :: t).drop 4) with
      | some cap => some cap
      | none => taskScan t
    else taskScan t

/-- Can `.*?` (no line terminators) reach a literal `task` from here? -/
def taskWordScan : List Char → Bool
  | [] => false
  | c :: t =>
    if ['t', 'a', 's', 'k'].isPrefixOf (c :: t) then true
    else if c = '\n' ∨ c = '\r' then false
    else taskWordScan t

/-- Leftmost match of `/(\d+).*?tasks?/i`, returning the digit capture. -/
def limitScan : List Char → Option (List Char)
  | [] => none
  | c :: t =>
    if c.isDigit then
      let ds := (c :: t).takeWhile Char.isDigit
      if taskWordScan ((c :: t).drop ds.length) then some ds else limitScan t
    else limitScan t

/-- `(?:,\d+)*\]` tail of the bracket alternative, accumulating the capture. -/
def bracketLoop : List Char → List Char → Option (List Char)
  | acc, ']' :: _ => some (acc ++ [']'])
  | acc, ',' :: r =>
    let d := r.takeWhile Char.isDigit
    if d = [] then none
    else bracketLoop (acc ++ ',' :: d) (r.drop d.length)
  | _, _ => none
termination_by _ l => l.length
decreasing_by
  simp only [List.length_cons, List.length_drop]
  omega

/-- The alternation `(\d+(?:-\d+)?|\[\d+(?:,\d+)*\])`. -/
def phaseAlt (l : List Char) : Option (List Char) :=
  match l with
  | [] => none
  | c :: t =>
    if c.isDigit then
      let d1 := (c :: t).takeWhile Char.isDigit
      let r := (c :: t).drop d1.length
      match r with
      | '-' :: r2 =>
        let d2 := r2.takeWhile Char.isDigit
        if d2 = [] then some d1 else some (d1 ++ '-' :: d2)
      | _ => some d1
    else if c = '[' then
      let d := t.takeWhile Char.isDigit
      if d = [] then none
      else (bracketLoop ('[' :: d) (t.drop d.length))
    else none

/-- Leftmost match of `/phase[s]?\s*(\d+(?:-\d+)?|\[\d+(?:,\d+)*\])/i`.  When
the character after `phase` is `s` it is consumed greedily; the `[s]?`-empty
backtrack can never succeed because `s` is neither whitespace, a digit nor
`[`. -/
def phaseScan : List Char → Option (List Char)
  | [] => none
  | c :: t =>
    if ['p', 'h', 'a', 's', 'e'].isPrefixOf (c :: t) then
      let rest := (c :: t).drop 5
      let r1 := match rest with | 's' :: r => r | _ => rest
      match phaseAlt (r1.dropWhile jsSpace) with
      | some cap => some cap
      | none => phaseScan t
    else phaseScan t

def coRunKw (rule : String) : Bool :=
  substrB "together" rule || substrB "same time" rule || substrB "co-run" rule

def loadKw (rule : String) : Bool :=
  substrB "limit" rule || substrB "maximum" rule || substrB "no more than" rule

def phaseKw (rule : String) : Bool :=
  substrB "phase" rule && (substrB "only" rule || substrB "must" rule)

def coRunRuleOf (now : Nat) (cap : List Char) : BusinessRule :=
  let taskIds := (splitChar ',' (String.mk cap)).map trimStr
  { id := "corun-" ++ toString now, type := .coRun, name := "Co-run Tasks",
    description := "Tasks " ++ joinSep ", " taskIds ++ " must run together",
    parameters := .tasksOf taskIds, priority := 1, active := true }

def loadRuleOf (now : Nat) (cap : List Char) : BusinessRule :=
  let maxTasks := digitsToNat cap
  { id := "loadlimit-" ++ toString now, type := .loadLimit, name := "Load Limit",
    description := "Maximum " ++ toString maxTasks ++ " tasks per phase",
    parameters := .loadOf maxTasks, priority := 1, active := true }

def phaseRuleOf (now : Nat) (cap : List Char) : BusinessRule :=
  { id := "phasewindow-" ++ toString now, type := .phaseWindow, name := "Phase Window",
    description := "Restrict to phases " ++ String.mk cap,
    parameters := .phaseOf (String.mk cap), priority := 1, active := true }

/-- Phase-window stage of `convertToRule` (reached when the earlier stages
did not return). -/
def convertPhaseStage (now : Nat) (rule : String) : Option BusinessRule :=
  if phaseKw rule then
    match phaseScan rule.data with
    | some cap => some (phaseRuleOf now cap)
    | none => none
  else none

/-- Load-limit stage of `convertToRule`. -/
def convertLoadStage (now : Nat) (rule : String) : Option BusinessRule :=
  if loadKw rule then
    match limitScan rule.data with
    | some cap => some (loadRuleOf now cap)
    | none => convertPhaseStage now rule
  else convertPhaseStage now rule

/-- `convertToRule`, with `Date.now()` as the explicit `now`.  The source
lowercases the text, then runs the three keyword stages in order; a stage
whose keywords hit but whose pattern misses falls through to the next
stage. -/
def convertToRule (now : Nat) (text : String) : Option BusinessRule :=
  let rule := lowerStr text
  if coRunKw rule then
    match taskScan rule.data with
    | some cap => some (coRunRuleOf now cap)
    | none => convertLoadStage now rule
  else convertLoadStage now rule

/-- The co-run stage in isolation: keywords and pattern must both hit. -/
def coRunAttempt (now : Nat) (text : String) : Option BusinessRule :=
  let rule := lowerStr text
  if coRunKw rule then (taskScan rule.data).map (coRunRuleOf now) else none

/-- The load-limit stage in isolation. -/
def loadAttempt (now : Nat) (text : String) : Option BusinessRule :=
  let rule := lowerStr text
  if loadKw rule then (limitScan rule.data).map (loadRuleOf now) else none

/-- The phase-window stage in isolation. -/
def phaseAttempt (now : Nat) (text : String) : Option BusinessRule :=
  let rule := lowerStr text
  if phaseKw rule then (phaseScan rule.data).map (phaseRuleOf now) else none

/-! ## Weight normalizer (`PriorityPanel.handleWeightChange`) -/

structure PriorityWeights where
  priorityLevel : ℚ
  taskFulfillment : ℚ
  fairness : ℚ
  workloadBalance : ℚ
  skillMatch : ℚ
  phasePreference : ℚ
deriving DecidableEq

inductive WeightField where
  | priorityLevel
  | taskFulfillment
  | fairness
  | workloadBalance
  | skillMatch
  | phasePreference
deriving DecidableEq

def setWeight (w : PriorityWeights) : WeightField → ℚ → PriorityWeights
  | .priorityLevel, v => { w with priorityLevel := v }
  | .taskFulfillment, v => { w with taskFulfillment := v }
  | .fairness, v => { w with fairness := v }
  | .workloadBalance, v => { w with workloadBalance := v }
  | .skillMatch, v => { w with skillMatch := v }
  | .phasePreference, v => { w with phasePreference := v }

/-- `Object.values(...).reduce((sum, w) => sum + w, 0)`. -/
def sumWeights (w : PriorityWeights) : ℚ :=
  w.priorityLevel + w.taskFulfillment + w.fairness + w.workloadBalance +
    w.skillMatch + w.phasePreference

def mapWeights (g : ℚ → ℚ) (w : PriorityWeights) : PriorityWeights :=
  { priorityLevel := g w.priorityLevel, taskFulfillment := g w.taskFulfillment,
    fairness := g w.fairness, workloadBalance := g w.workloadBalance,
    skillMatch := g w.skillMatch, phasePreference := g w.phasePreference }

/-- The normalization core of `handleWeightChange`: set the changed field,
then divide every field by the new total unless that total is not
positive. -/
def normalize (w : PriorityWeights) (f : WeightField) (v : ℚ) : PriorityWeights :=
  let nw := setWeight w f v
  let total := sumWeights nw
  if 0 < total then mapWeights (· / total) nw else nw

/-- `handleWeightChange(field, value)`: the slider reports percent, so the
stored value is `value / 100`. -/
def handleWeightChange (w : PriorityWeights) (f : WeightField) (value : ℚ) :
    PriorityWeights :=
  normalize w f (value / 100)

/-- All six weights non-negative — the `PriorityWeights` data-model
invariant. -/
def NonnegW (w : PriorityWeights) : Prop :=
  0 ≤ w.priorityLevel ∧ 0 ≤ w.taskFulfillment ∧ 0 ≤ w.fairness ∧
    0 ≤ w.workloadBalance ∧ 0 ≤ w.skillMatch ∧ 0 ≤ w.phasePreference

/-! ## Theorems: weight normalizer (C1) -/

/-- C1.  `normalize` sets the changed field and rescales all six fields by
the new total, so the result sums to exactly 1 (hence within `1e-6` of it);
with the data model's non-negative weights the rescale is skipped exactly
when the new total is `0`, in which case the field-substituted record is
returned unchanged.  `handleWeightChange` is `normalize` applied to the
slider value divided by 100. -/
theorem normalize_sums_to_one (w : PriorityWeights) (f : WeightField) (v : ℚ)
    (hw : NonnegW w) (hv : 0 ≤ v) :
    (sumWeights (setWeight w f v) ≠ 0 →
      normalize w f v =
        mapWeights (· / sumWeights (setWeight w f v)) (setWeight w f v) ∧
      |sumWeights (normalize w f v) - 1| < 1 / 1000000) ∧
    (sumWeights (setWeight w f v) = 0 → normalize w f v = setWeight w f v) ∧
    (∀ value, handleWeightChange w f value = normalize w f (value / 100)) := by
  obtain ⟨h1, h2, h3, h4, h5, h6⟩ := hw
  have hnn : 0 ≤ sumWeights (setWeight w f v) := by
    cases f <;> · simp only [setWeight, sumWeights]; linarith
  refine ⟨fun h0 => ?_, fun h0 => ?_, fun _ => rfl⟩
  · have hpos : 0 < sumWeights (setWeight w f v) := lt_of_le_of_ne hnn (Ne.symm h0)
    have heq : normalize w f v =
        mapWeights (· / sumWeights (setWeight w f v)) (setWeight w f v) := by
      unfold normalize
      simp only [if_pos hpos]
    refine ⟨heq, ?_⟩
    rw [heq]
    have hs : sumWeights
        (mapWeights (· / sumWeights (setWeight w f v)) (setWeight w f v)) =
        sumWeights (setWeight w f v) / sumWeights (setWeight w f v) := by
      simp only [sumWeights, mapWeights]
      ring
    rw [hs, div_self h0]
    norm_num
  · have hneg : ¬ 0 < sumWeights (setWeight w f v) := by
      rw [h0]
      exact lt_irrefl 0
    unfold normalize
    simp only [if_neg hneg]

/-- Witness for C1 at the default weight vector with `skillMatch` set
to `1/2`. -/
theorem normalize_sums_to_one_witness :
    |sumWeights (normalize ⟨3/10, 1/4, 1/5, 3/20, 1/20, 1/20⟩ .skillMatch (1/2)) - 1|
      < 1 / 1000000 :=
  ((normalize_sums_to_one ⟨3/10, 1/4, 1/5, 3/20, 1/20, 1/20⟩ .skillMatch (1/2)
      (by refine ⟨?_, ?_, ?_, ?_, ?_, ?_⟩ <;> norm_num)
      (by norm_num)).1
    (by norm_num [sumWeights, setWeight])).2

/-! ## Theorems: text-rule compiler (C5, C6) -/

/-- C5 (amended).  `convertToRule` evaluates its categories in the fixed
order co-run, load-limit, phase-window, and the first stage whose keywords
AND pattern both match wins; a stage whose keywords match but whose pattern
is absent falls through to the later stages, and `none` is returned only
when no stage matches with its pattern. -/
theorem convertToRule_stage_order (now : Nat) (text : String) :
    convertToRule now text =
      ((coRunAttempt now text).orElse fun _ => loadAttempt now text).orElse
        fun _ => phaseAttempt now text := by
  unfold convertToRule coRunAttempt loadAttempt phaseAttempt convertLoadStage convertPhaseStage
  cases hc : coRunKw (lowerStr text) <;>
    cases hl : loadKw (lowerStr text) <;>
      cases hp : phaseKw (lowerStr text) <;>
        cases hts : taskScan (lowerStr text).data <;>
          cases hls : limitScan (lowerStr text).data <;>
            cases hps : phaseScan (lowerStr text).data <;>
              simp [hc, hl, hp, hts, hls, hps, Option.orElse]

/-- Counterexample to C5 as stated: in
`"meet together only in phase 2"` the first matching category is co-run
(keyword `together`), its task pattern is absent, yet the function does not
return `none` — it falls through and produces a phase-window rule. -/
theorem convertToRule_corun_fallthrough :
    coRunKw (lowerStr "meet together only in phase 2") = true ∧
    taskScan (lowerStr "meet together only in phase 2").data = none ∧
    convertToRule 0 "meet together only in phase 2" =
      some { id := "phasewindow-0", type := .phaseWindow, name := "Phase Window",
             description := "Restrict to phases 2", parameters := .phaseOf "2",
             priority := 1, active := true } :=
  ⟨rfl, rfl, rfl⟩

/-- A `BusinessRule` with its timestamp-bearing `id` blanked. -/
def eraseId (r : BusinessRule) : BusinessRule := { r with id := "" }

/-- C6 (amended).  For a fixed timestamp `convertToRule` is a pure function
of its text; across two invocations (two `Date.now()` readings) the results
agree on every field except `id`, which embeds the timestamp. -/
theorem convertToRule_deterministic_up_to_id (t1 t2 : Nat) (text : String) :
    (convertToRule t1 text).map eraseId = (convertToRule t2 text).map eraseId := by
  unfold convertToRule convertLoadStage convertPhaseStage
  cases hc : coRunKw (lowerStr text) <;>
    cases hl : loadKw (lowerStr text) <;>
      cases hp : phaseKw (lowerStr text) <;>
        cases hts : taskScan (lowerStr text).data <;>
          cases hls : limitScan (lowerStr text).data <;>
            cases hps : phaseScan (lowerStr text).data <;>
              simp [hc, hl, hp, hts, hls, hps, eraseId, coRunRuleOf, loadRuleOf, phaseRuleOf]

/-- Counterexample to C6 as stated: two invocations on the same text at
`Date.now()` readings 0 and 1 differ (in the `id` field). -/
theorem convertToRule_id_differs :
    convertToRule 0 "tasks T001 and T002 must run together" ≠
      convertToRule 1 "tasks T001 and T002 must run together" := by
  decide

/-! ## Validator structure lemmas

Shape facts about the errors each check can emit, used to tell the checks'
contributions to `validateAll` apart without string reasoning. -/

theorem filter_eq_nil_of_false {α : Type} {l : List α} {P : α → Bool}
    (h : ∀ e ∈ l, P e = false) : l.filter P = [] := by
  induction l with
  | nil => rfl
  | cons x xs ih =>
    have hx := h x (List.mem_cons_self x xs)
    simp only [List.filter_cons, hx, Bool.false_eq_true, if_false]
    exact ih fun e he => h e (List.mem_cons_of_mem x he)

theorem mem_missingErrsFor {c : Client} {e : ValidationError}
    (h : e ∈ missingErrsFor c) : e.entity = .client ∧ e.field.isSome ∧ e.type = .error := by
  unfold missingErrsFor at h
  simp only [List.mem_append] at h
  rcases h with (h | h) | h <;> split at h <;> simp_all

theorem mem_validateMissingColumns {cs : List Client} {e : ValidationError}
    (h : e ∈ validateMissingColumns cs) :
    e.entity = .client ∧ e.field.isSome ∧ e.type = .error := by
  induction cs with
  | nil => simp [validateMissingColumns] at h
  | cons c cs ih =>
    simp only [validateMissingColumns, List.mem_append] at h
    rcases h with h | h
    · exact mem_missingErrsFor h
    · exact ih h

theorem mem_dupAux {mkE : String → ValidationError} {getId : α → String}
    {e : ValidationError} :
    ∀ {xs : List α} {seen : List String}, e ∈ dupAux mkE getId seen xs → ∃ i, e = mkE i := by
  intro xs
  induction xs with
  | nil => intro seen h; simp [dupAux] at h
  | cons x xs ih =>
    intro seen h
    simp only [dupAux, List.mem_append] at h
    rcases h with h | h
    · split at h <;> simp at h
      exact ⟨getId x, h⟩
    · exact ih h

theorem mem_validateMalformedLists {ws : List Worker} {e : ValidationError}
    (h : e ∈ validateMalformedLists ws) :
    e.entity = .worker ∧ e.field = some "AvailableSlots" ∧ e.type = .error := by
  induction ws with
  | nil => simp [validateMalformedLists] at h
  | cons w ws ih =>
    simp only [validateMalformedLists, List.mem_append] at h
    rcases h with h | h
    · unfold malformedErrsFor at h
      split at h <;> [skip; (simp at h; subst h; simp [invalidSlotsErr])]
      split at h <;> simp at h
      subst h; simp [malformedSlotsErr]
    · exact ih h

theorem mem_rangeClients {cs : List Client} {e : ValidationError}
    (h : e ∈ rangeClients cs) :
    e.entity = .client ∧ e.field = some "PriorityLevel" ∧ e.type = .error := by
  induction cs with
  | nil => simp [rangeClients] at h
  | cons c cs ih =>
    simp only [rangeClients, List.mem_append] at h
    rcases h with h | h
    · unfold rangeErrsForClient at h
      split at h <;> simp at h
      subst h; simp
    · exact ih h

theorem mem_rangeTasks {ts : List Task} {e : ValidationError}
    (h : e ∈ rangeTasks ts) :
    e.entity = .task ∧ e.field = some "Duration" ∧ e.type = .error := by
  induction ts with
  | nil => simp [rangeTasks] at h
  | cons t ts ih =>
    simp only [rangeTasks, List.mem_append] at h
    rcases h with h | h
    · unfold rangeErrsForTask at h
      split at h <;> simp at h
      subst h; simp
    · exact ih h

theorem mem_validateBrokenJSON {cs : List Client} {e : ValidationError}
    (h : e ∈ validateBrokenJSON cs) :
    e.entity = .client ∧ e.field = some "AttributesJSON" ∧ e.type = .error := by
  induction cs with
  | nil => simp [validateBrokenJSON] at h
  | cons c cs ih =>
    simp only [validateBrokenJSON, List.mem_append] at h
    rcases h with h | h
    · unfold brokenJSONErrsFor at h
      split at h <;> [split at h <;> simp at h; simp at h]
      subst h; simp
    · exact ih h

theorem mem_unknownErrsList {taskIds : List String} {cid : String} {e : ValidationError} :
    ∀ {l : List String}, e ∈ unknownErrsList taskIds cid l →
      ∃ tid ∈ l, taskIds.contains tid = false ∧ e = unknownRefErr cid tid := by
  intro l
  induction l with
  | nil => intro h; simp [unknownErrsList] at h
  | cons tid rest ih =>
    intro h
    simp only [unknownErrsList, List.mem_append] at h
    rcases h with h | h
    · split at h <;> simp at h
      next hc => exact ⟨tid, List.mem_cons_self tid rest, by simpa using hc, h⟩
    · obtain ⟨tid', hm, hc, he⟩ := ih h
      exact ⟨tid', List.mem_cons_of_mem tid hm, hc, he⟩

theorem mem_unknownRefsAux {taskIds : List String} {cs : List Client} {e : ValidationError}
    (h : e ∈ unknownRefsAux taskIds cs) :
    ∃ c ∈ cs, ∃ tid, taskIds.contains tid = false ∧ e = unknownRefErr c.ClientID tid := by
  induction cs with
  | nil => simp [unknownRefsAux] at h
  | cons c cs ih =>
    simp only [unknownRefsAux, List.mem_append] at h
    rcases h with h | h
    · unfold unknownErrsFor at h
      split at h
      · simp at h
      · obtain ⟨tid, _, hc, he⟩ := mem_unknownErrsList h
        exact ⟨c, List.mem_cons_self c cs, tid, hc, he⟩
    · obtain ⟨c', hm, tid, hc, he⟩ := ih h
      exact ⟨c', List.mem_cons_of_mem c hm, tid, hc, he⟩

theorem mem_validateOverloadedWorkers {ws : List Worker} {e : ValidationError}
    (h : e ∈ validateOverloadedWorkers ws) :
    e.entity = .worker ∧ e.field = none ∧ e.type = .warning := by
  induction ws with
  | nil => simp [validateOverloadedWorkers] at h
  | cons w ws ih =>
    simp only [validateOverloadedWorkers, List.mem_append] at h
    rcases h with h | h
    · unfold overloadedErrsFor at h
      split at h <;> [split at h <;> simp at h; simp at h]
      subst h; simp [overloadedErr]
    · exact ih h

theorem mem_skillCovList {wskills : List String} {t : Task} {e : ValidationError} :
    ∀ {l : List String}, e ∈ skillCovList wskills t l →
      e.entity = .task ∧ e.field = some "RequiredSkills" ∧ e.type = .error := by
  intro l
  induction l with
  | nil => intro h; simp [skillCovList] at h
  | cons sk rest ih =>
    intro h
    simp only [skillCovList, List.mem_append] at h
    rcases h with h | h
    · split at h <;> simp at h
      subst h; simp [skillCovErr]
    · exact ih h

theorem mem_skillCovAux {wskills : List String} {ts : List Task} {e : ValidationError}
    (h : e ∈ skillCovAux wskills ts) :
    e.entity = .task ∧ e.field = some "RequiredSkills" ∧ e.type = .error := by
  induction ts with
  | nil => simp [skillCovAux] at h
  | cons t ts ih =>
    simp only [skillCovAux, List.mem_append] at h
    rcases h with h | h
    · exact mem_skillCovList h
    · exact ih h

theorem mem_maxConcAux {ws : List Worker} {ts : List Task} {e : ValidationError}
    (h : e ∈ maxConcAux ws ts) :
    e.entity = .task ∧ e.field = some "MaxConcurrent" ∧ e.type = .warning := by
  induction ts with
  | nil => simp [maxConcAux] at h
  | cons t ts ih =>
    simp only [maxConcAux, List.mem_append] at h
    rcases h with h | h
    · unfold maxConcErrsFor at h
      split at h <;> simp at h
      subst h; simp
    · exact ih h

/-! ## Duplicate-ID counting (C2, C10) -/

/-- Structural signature of a duplicate-ID error inside a `validateAll`
result: among all twelve checks, only the duplicate-ID check emits an
`error` with no `field` for the given entity kind. -/
def isDupErrP (k : EntityKind) (s : String) (e : ValidationError) : Bool :=
  decide (e.entity = k ∧ e.type = .error ∧ e.field = none ∧ e.entityId = s)

theorem isDupErrP_false_of_field {k : EntityKind} {s : String} {e : ValidationError}
    (h : e.field.isSome) : isDupErrP k s e = false := by
  rcases Option.isSome_iff_exists.mp h with ⟨f, hf⟩
  simp [isDupErrP, hf]

theorem isDupErrP_false_of_warning {k : EntityKind} {s : String} {e : ValidationError}
    (h : e.type = .warning) : isDupErrP k s e = false := by
  simp [isDupErrP, h]

theorem dupAux_filter_length {α : Type} (mkE : String → ValidationError)
    (getId : α → String) (P : ValidationError → Bool) (s : String)
    (hP : ∀ i, P (mkE i) = (i == s)) :
    ∀ (xs : List α) (seen : List String),
      ((dupAux mkE getId seen xs).filter P).length =
        if s ∈ seen then (xs.map getId).count s else (xs.map getId).count s - 1 := by
  intro xs
  induction xs with
  | nil => intro seen; simp [dupAux]
  | cons x xs ih =>
    intro seen
    simp only [dupAux, List.filter_append, List.length_append, List.map_cons]
    rw [ih (getId x :: seen)]
    by_cases hx : getId x = s
    · subst hx
      by_cases hmem : getId x ∈ seen
      · simp [hmem, hP, List.count_cons]
        omega
      · simp [hmem, hP, List.count_cons]
    · by_cases hmem : getId x ∈ seen <;>
        simp [hx, hmem, hP, List.count_cons, List.mem_cons, Ne.symm hx]

theorem dupAux_filter_all {α : Type} {mkE : String → ValidationError}
    {getId : α → String} {P : ValidationError → Bool} {s : String}
    (hP : ∀ i, P (mkE i) = (i == s)) {xs : List α} {seen : List String} :
    ∀ e ∈ (dupAux mkE getId seen xs).filter P, e = mkE s := by
  intro e he
  rw [List.mem_filter] at he
  obtain ⟨hm, hp⟩ := he
  obtain ⟨i, rfl⟩ := mem_dupAux hm
  rw [hP] at hp
  exact congrArg mkE (by simpa using hp)

theorem isDupErrP_dupClientErr (s i : String) :
    isDupErrP .client s (dupClientErr i) = (i == s) := by
  by_cases h : i = s <;> simp [isDupErrP, dupClientErr, h]

theorem isDupErrP_dupWorkerErr (s i : String) :
    isDupErrP .worker s (dupWorkerErr i) = (i == s) := by
  by_cases h : i = s <;> simp [isDupErrP, dupWorkerErr, h]

theorem isDupErrP_dupTaskErr (s i : String) :
    isDupErrP .task s (dupTaskErr i) = (i == s) := by
  by_cases h : i = s <;> simp [isDupErrP, dupTaskErr, h]

/-- Filtering a `validateAll` result on the client duplicate-error signature
keeps exactly the client duplicate-ID pass. -/
theorem validateAll_filter_dup_client (cs : List Client) (ws : List Worker)
    (ts : List Task) (s : String) :
    (validateAll cs ws ts).filter (isDupErrP .client s) =
      (dupAux dupClientErr Client.ClientID [] cs).filter (isDupErrP .client s) := by
  unfold validateAll validateDuplicateIDs validateOutOfRangeValues
    validateCircularCoRuns validatePhaseSlotSaturation validateConflictingRules
    validateSkillCoverage validateMaxConcurrency validateUnknownReferences
  simp only [List.filter_append, List.append_nil, List.filter_nil]
  rw [filter_eq_nil_of_false (fun e (he : e ∈ validateMissingColumns cs) =>
      isDupErrP_false_of_field (mem_validateMissingColumns he).2.1),
    filter_eq_nil_of_false (fun e (he : e ∈ dupAux dupWorkerErr Worker.WorkerID [] ws) => by
      obtain ⟨i, rfl⟩ := mem_dupAux he
      simp [isDupErrP, dupWorkerErr]),
    filter_eq_nil_of_false (fun e (he : e ∈ dupAux dupTaskErr Task.TaskID [] ts) => by
      obtain ⟨i, rfl⟩ := mem_dupAux he
      simp [isDupErrP, dupTaskErr]),
    filter_eq_nil_of_false (fun e (he : e ∈ validateMalformedLists ws) => by
      simp [isDupErrP, (mem_validateMalformedLists he).2.1]),
    filter_eq_nil_of_false (fun e (he : e ∈ rangeClients cs) => by
      simp [isDupErrP, (mem_rangeClients he).2.1]),
    filter_eq_nil_of_false (fun e (he : e ∈ rangeTasks ts) => by
      simp [isDupErrP, (mem_rangeTasks he).2.1]),
    filter_eq_nil_of_false (fun e (he : e ∈ validateBrokenJSON cs) => by
      simp [isDupErrP, (mem_validateBrokenJSON he).2.1]),
    filter_eq_nil_of_false (fun e (he : e ∈ unknownRefsAux (ts.map Task.TaskID) cs) => by
      obtain ⟨c, _, tid, _, rfl⟩ := mem_unknownRefsAux he
      simp [isDupErrP, unknownRefErr]),
    filter_eq_nil_of_false (fun e (he : e ∈ validateOverloadedWorkers ws) => by
      exact isDupErrP_false_of_warning (mem_validateOverloadedWorkers he).2.2),
    filter_eq_nil_of_false (fun e (he : e ∈ skillCovAux (allWorkerSkills ws) ts) => by
      simp [isDupErrP, (mem_skillCovAux he).2.1]),
    filter_eq_nil_of_false (fun e (he : e ∈ maxConcAux ws ts) => by
      exact isDupErrP_false_of_warning (mem_maxConcAux he).2.2)]
  simp

/-- Filtering a `validateAll` result on the worker duplicate-error signature
keeps exactly the worker duplicate-ID pass. -/
theorem validateAll_filter_dup_worker (cs : List Client) (ws : List Worker)
    (ts : List Task) (s : String) :
    (validateAll cs ws ts).filter (isDupErrP .worker s) =
      (dupAux dupWorkerErr Worker.WorkerID [] ws).filter (isDupErrP .worker s) := by
  unfold validateAll validateDuplicateIDs validateOutOfRangeValues
    validateCircularCoRuns validatePhaseSlotSaturation validateConflictingRules
    validateSkillCoverage validateMaxConcurrency validateUnknownReferences
  simp only [List.filter_append, List.append_nil, List.filter_nil]
  rw [filter_eq_nil_of_false (fun e (he : e ∈ validateMissingColumns cs) => by
      simp [isDupErrP, (mem_validateMissingColumns he).1]),
    filter_eq_nil_of_false (fun e (he : e ∈ dupAux dupClientErr Client.ClientID [] cs) => by
      obtain ⟨i, rfl⟩ := mem_dupAux he
      simp [isDupErrP, dupClientErr]),
    filter_eq_nil_of_false (fun e (he : e ∈ dupAux dupTaskErr Task.TaskID [] ts) => by
      obtain ⟨i, rfl⟩ := mem_dupAux he
      simp [isDupErrP, dupTaskErr]),
    filter_eq_nil_of_false (fun e (he : e ∈ validateMalformedLists ws) => by
      simp [isDupErrP, (mem_validateMalformedLists he).2.1]),
    filter_eq_nil_of_false (fun e (he : e ∈ rangeClients cs) => by
      simp [isDupErrP, (mem_rangeClients he).2.1]),
    filter_eq_nil_of_false (fun e (he : e ∈ rangeTasks ts) => by
      simp [isDupErrP, (mem_rangeTasks he).2.1]),
    filter_eq_nil_of_false (fun e (he : e ∈ validateBrokenJSON cs) => by
      simp [isDupErrP, (mem_validateBrokenJSON he).2.1]),
    filter_eq_nil_of_false (fun e (he : e ∈ unknownRefsAux (ts.map Task.TaskID) cs) => by
      obtain ⟨c, _, tid, _, rfl⟩ := mem_unknownRefsAux he
      simp [isDupErrP, unknownRefErr]),
    filter_eq_nil_of_false (fun e (he : e ∈ validateOverloadedWorkers ws) => by
      exact isDupErrP_false_of_warning (mem_validateOverloadedWorkers he).2.2),
    filter_eq_nil_of_false (fun e (he : e ∈ skillCovAux (allWorkerSkills ws) ts) => by
      simp [isDupErrP, (mem_skillCovAux he).2.1]),
    filter_eq_nil_of_false (fun e (he : e ∈ maxConcAux ws ts) => by
      exact isDupErrP_false_of_warning (mem_maxConcAux he).2.2)]
  simp

/-- Filtering a `validateAll` result on the task duplicate-error signature
keeps exactly the task duplicate-ID pass. -/
theorem validateAll_filter_dup_task (cs : List Client) (ws : List Worker)
    (ts : List Task) (s : String) :
    (validateAll cs ws ts).filter (isDupErrP .task s) =
      (dupAux dupTaskErr Task.TaskID [] ts).filter (isDupErrP .task s) := by
  unfold validateAll validateDuplicateIDs validateOutOfRangeValues
    validateCircularCoRuns validatePhaseSlotSaturation validateConflictingRules
    validateSkillCoverage validateMaxConcurrency validateUnknownReferences
  simp only [List.filter_append, List.append_nil, List.filter_nil]
  rw [filter_eq_nil_of_false (fun e (he : e ∈ validateMissingColumns cs) => by
      simp [isDupErrP, (mem_validateMissingColumns he).1]),
    filter_eq_nil_of_false (fun e (he : e ∈ dupAux dupClientErr Client.ClientID [] cs) => by
      obtain ⟨i, rfl⟩ := mem_dupAux he
      simp [isDupErrP, dupClientErr]),
    filter_eq_nil_of_false (fun e (he : e ∈ dupAux dupWorkerErr Worker.WorkerID [] ws) => by
      obtain ⟨i, rfl⟩ := mem_dupAux he
      simp [isDupErrP, dupWorkerErr]),
    filter_eq_nil_of_false (fun e (he : e ∈ validateMalformedLists ws) => by
      simp [isDupErrP, (mem_validateMalformedLists he).2.1]),
    filter_eq_nil_of_false (fun e (he : e ∈ rangeClients cs) => by
      simp [isDupErrP, (mem_rangeClients he).2.1]),
    filter_eq_nil_of_false (fun e (he : e ∈ rangeTasks ts) => by
      simp [isDupErrP, (mem_rangeTasks he).2.1]),
    filter_eq_nil_of_false (fun e (he : e ∈ validateBrokenJSON cs) => by
      simp [isDupErrP, (mem_validateBrokenJSON he).2.1]),
    filter_eq_nil_of_false (fun e (he : e ∈ unknownRefsAux (ts.map Task.TaskID) cs) => by
      obtain ⟨c, _, tid, _, rfl⟩ := mem_unknownRefsAux he
      simp [isDupErrP, unknownRefErr]),
    filter_eq_nil_of_false (fun e (he : e ∈ validateOverloadedWorkers ws) => by
      exact isDupErrP_false_of_warning (mem_validateOverloadedWorkers he).2.2),
    filter_eq_nil_of_false (fun e (he : e ∈ skillCovAux (allWorkerSkills ws) ts) => by
      simp [isDupErrP, (mem_skillCovAux he).2.1]),
    filter_eq_nil_of_false (fun e (he : e ∈ maxConcAux ws ts) => by
      exact isDupErrP_false_of_warning (mem_maxConcAux he).2.2)]
  simp

/-- C2.  In every collection, an ID occurring `count` times yields exactly
`count − 1` duplicate-ID errors in `validateAll` (so a single occurrence is
never flagged), and each of those errors is the duplicate record for that
ID — the repeats, not the first occurrence, are what get flagged, one error
per later occurrence. -/
theorem validateAll_duplicate_counts (cs : List Client) (ws : List Worker)
    (ts : List Task) (s : String) :
    (((validateAll cs ws ts).filter (isDupErrP .client s)).length
        = (cs.map Client.ClientID).count s - 1 ∧
      ∀ e ∈ (validateAll cs ws ts).filter (isDupErrP .client s), e = dupClientErr s) ∧
    (((validateAll cs ws ts).filter (isDupErrP .worker s)).length
        = (ws.map Worker.WorkerID).count s - 1 ∧
      ∀ e ∈ (validateAll cs ws ts).filter (isDupErrP .worker s), e = dupWorkerErr s) ∧
    (((validateAll cs ws ts).filter (isDupErrP .task s)).length
        = (ts.map Task.TaskID).count s - 1 ∧
      ∀ e ∈ (validateAll cs ws ts).filter (isDupErrP .task s), e = dupTaskErr s) := by
  refine ⟨⟨?_, ?_⟩, ⟨?_, ?_⟩, ⟨?_, ?_⟩⟩
  · rw [validateAll_filter_dup_client,
      dupAux_filter_length dupClientErr Client.ClientID _ s (isDupErrP_dupClientErr s)]
    simp
  · intro e he
    rw [validateAll_filter_dup_client] at he
    exact dupAux_filter_all (isDupErrP_dupClientErr s) e he
  · rw [validateAll_filter_dup_worker,
      dupAux_filter_length dupWorkerErr Worker.WorkerID _ s (isDupErrP_dupWorkerErr s)]
    simp
  · intro e he
    rw [validateAll_filter_dup_worker] at he
    exact dupAux_filter_all (isDupErrP_dupWorkerErr s) e he
  · rw [validateAll_filter_dup_task,
      dupAux_filter_length dupTaskErr Task.TaskID _ s (isDupErrP_dupTaskErr s)]
    simp
  · intro e he
    rw [validateAll_filter_dup_task] at he
    exact dupAux_filter_all (isDupErrP_dupTaskErr s) e he

/-- Witness for C2: three clients sharing `ClientID "C001"` yield exactly
2 duplicate errors. -/
theorem validateAll_duplicate_counts_witness :
    ((validateAll
        [⟨"C001", "A", 1, "", "", ""⟩, ⟨"C001", "B", 2, "", "", ""⟩,
          ⟨"C001", "C", 3, "", "", ""⟩] [] []).filter (isDupErrP .client "C001")).length
      = 2 ∧
    dupClientErr "C001" = dupClientErr "C001" :=
  ⟨((validateAll_duplicate_counts
      [⟨"C001", "A", 1, "", "", ""⟩, ⟨"C001", "B", 2, "", "", ""⟩,
        ⟨"C001", "C", 3, "", "", ""⟩] [] [] "C001").1.1).trans (by decide),
   (validateAll_duplicate_counts
      [⟨"C001", "A", 1, "", "", ""⟩, ⟨"C001", "B", 2, "", "", ""⟩,
        ⟨"C001", "C", 3, "", "", ""⟩] [] [] "C001").1.2
     (dupClientErr "C001") (by decide)⟩

/-- All the matching duplicate errors share one `id` string, so with at
least two of them the `id` field cannot be unique in the result. -/
theorem dup_not_unique_aux {l : List ValidationError} {P : ValidationError → Bool}
    {d : ValidationError}
    (hall : ∀ e ∈ l.filter P, e = d)
    (hlen : 2 ≤ (l.filter P).length) :
    ¬ (l.map ValidationError.id).Nodup := by
  intro hnd
  have hcount : (l.filter P).length ≤ (l.map ValidationError.id).count d.id := by
    calc (l.filter P).length
        = ((l.filter P).map ValidationError.id).count d.id := by
          rw [List.count_eq_length.mpr ?_, List.length_map]
          intro b hb
          obtain ⟨e, he, rfl⟩ := List.mem_map.mp hb
          rw [hall e he]
      _ ≤ _ := ((l.filter_sublist).map ValidationError.id).count_le d.id
  have hone := List.nodup_iff_count_le_one.mp hnd d.id
  omega

/-- C10.  When an ID occurs `k ≥ 3` times in a collection, the `k − 1`
duplicate errors of `validateAll` all carry the identical
`duplicate-<entity>-<ID>` id string, so the `id` field is not unique within
a single `validateAll` result. -/
theorem validateAll_duplicate_ids_not_unique (cs : List Client) (ws : List Worker)
    (ts : List Task) (s : String) :
    (3 ≤ (cs.map Client.ClientID).count s →
      (∀ e ∈ (validateAll cs ws ts).filter (isDupErrP .client s),
        e.id = "duplicate-client-" ++ s) ∧
      2 ≤ ((validateAll cs ws ts).filter (isDupErrP .client s)).length ∧
      ¬ ((validateAll cs ws ts).map ValidationError.id).Nodup) ∧
    (3 ≤ (ws.map Worker.WorkerID).count s →
      (∀ e ∈ (validateAll cs ws ts).filter (isDupErrP .worker s),
        e.id = "duplicate-worker-" ++ s) ∧
      2 ≤ ((validateAll cs ws ts).filter (isDupErrP .worker s)).length ∧
      ¬ ((validateAll cs ws ts).map ValidationError.id).Nodup) ∧
    (3 ≤ (ts.map Task.TaskID).count s →
      (∀ e ∈ (validateAll cs ws ts).filter (isDupErrP .task s),
        e.id = "duplicate-task-" ++ s) ∧
      2 ≤ ((validateAll cs ws ts).filter (isDupErrP .task s)).length ∧
      ¬ ((validateAll cs ws ts).map ValidationError.id).Nodup) := by
  refine ⟨fun h3 => ?_, fun h3 => ?_, fun h3 => ?_⟩
  · have hall : ∀ e ∈ (validateAll cs ws ts).filter (isDupErrP .client s),
        e = dupClientErr s := by
      intro e he
      rw [validateAll_filter_dup_client] at he
      exact dupAux_filter_all (isDupErrP_dupClientErr s) e he
    have hlen : 2 ≤ ((validateAll cs ws ts).filter (isDupErrP .client s)).length := by
      rw [validateAll_filter_dup_client,
        dupAux_filter_length dupClientErr Client.ClientID _ s (isDupErrP_dupClientErr s)]
      simp only [List.not_mem_nil, if_false]
      omega
    exact ⟨fun e he => by rw [hall e he]; rfl, hlen, dup_not_unique_aux hall hlen⟩
  · have hall : ∀ e ∈ (validateAll cs ws ts).filter (isDupErrP .worker s),
        e = dupWorkerErr s := by
      intro e he
      rw [validateAll_filter_dup_worker] at he
      exact dupAux_filter_all (isDupErrP_dupWorkerErr s) e he
    have hlen : 2 ≤ ((validateAll cs ws ts).filter (isDupErrP .worker s)).length := by
      rw [validateAll_filter_dup_worker,
        dupAux_filter_length dupWorkerErr Worker.WorkerID _ s (isDupErrP_dupWorkerErr s)]
      simp only [List.not_mem_nil, if_false]
      omega
    exact ⟨fun e he => by rw [hall e he]; rfl, hlen, dup_not_unique_aux hall hlen⟩
  · have hall : ∀ e ∈ (validateAll cs ws ts).filter (isDupErrP .task s),
        e = dupTaskErr s := by
      intro e he
      rw [validateAll_filter_dup_task] at he
      exact dupAux_filter_all (isDupErrP_dupTaskErr s) e he
    have hlen : 2 ≤ ((validateAll cs ws ts).filter (isDupErrP .task s)).length := by
      rw [validateAll_filter_dup_task,
        dupAux_filter_length dupTaskErr Task.TaskID _ s (isDupErrP_dupTaskErr s)]
      simp only [List.not_mem_nil, if_false]
      omega
    exact ⟨fun e he => by rw [hall e he]; rfl, hlen, dup_not_unique_aux hall hlen⟩

/-- Witness for C10: a task ID occurring three times makes the `id` strings
of the `validateAll` output non-unique. -/
theorem validateAll_duplicate_ids_not_unique_witness :
    ¬ ((validateAll []
        [] [⟨"T1", "A", "c", 1, "s", "", 1⟩, ⟨"T1", "B", "c", 1, "s", "", 1⟩,
          ⟨"T1", "C", "c", 1, "s", "", 1⟩]).map ValidationError.id).Nodup :=
  ((validateAll_duplicate_ids_not_unique []
      [] [⟨"T1", "A", "c", 1, "s", "", 1⟩, ⟨"T1", "B", "c", 1, "s", "", 1⟩,
        ⟨"T1", "C", "c", 1, "s", "", 1⟩] "T1").2.2 (by decide)).2.2

/-! ## Overloaded-worker warnings (C7, C9) -/

/-- Does this worker trip the overload check: `AvailableSlots` parses as an
array shorter than `MaxLoadPerPhase`? -/
def slotsShortB (w : Worker) : Bool :=
  match jsonParse w.AvailableSlots with
  | some (.arr xs) => decide ((xs.length : Int) < w.MaxLoadPerPhase)
  | _ => false

/-- Structural signature of an overload warning inside a `validateAll`
result: the only worker-entity warnings come from the overload check. -/
def isOverWarnP (wid : String) (e : ValidationError) : Bool :=
  decide (e.entity = .worker ∧ e.type = .warning ∧ e.entityId = wid)

theorem isOverWarnP_false_of_entity {wid : String} {e : ValidationError}
    (h : e.entity ≠ .worker) : isOverWarnP wid e = false := by
  simp [isOverWarnP, h]

theorem isOverWarnP_false_of_error {wid : String} {e : ValidationError}
    (h : e.type = .error) : isOverWarnP wid e = false := by
  simp [isOverWarnP, h]

theorem overloadedErrsFor_filter (w : Worker) (wid : String) :
    ((overloadedErrsFor w).filter (isOverWarnP wid)).length =
      if slotsShortB w && (w.WorkerID == wid) then 1 else 0 := by
  unfold overloadedErrsFor slotsShortB
  cases hj : jsonParse w.AvailableSlots with
  | none => simp
  | some j =>
    cases j with
    | arr xs =>
      by_cases hlt : (xs.length : Int) < w.MaxLoadPerPhase
      · by_cases hw : w.WorkerID = wid <;>
          simp [hlt, hw, isOverWarnP, overloadedErr]
      · simp [hlt]
    | null => simp
    | bool b => simp
    | num q => simp
    | str s => simp
    | obj kvs => simp

theorem validateOverloadedWorkers_filter_length (ws : List Worker) (wid : String) :
    ((validateOverloadedWorkers ws).filter (isOverWarnP wid)).length =
      (ws.filter fun v => slotsShortB v && (v.WorkerID == wid)).length := by
  induction ws with
  | nil => rfl
  | cons w ws ih =>
    simp only [validateOverloadedWorkers, List.filter_append, List.length_append, ih,
      List.filter_cons]
    rw [overloadedErrsFor_filter w wid]
    by_cases h : slotsShortB w && (w.WorkerID == wid)
    · simp [h]
      omega
    · simp [h]

/-- Filtering a `validateAll` result on the overload-warning signature keeps
exactly the overload check. -/
theorem validateAll_filter_overload (cs : List Client) (ws : List Worker)
    (ts : List Task) (wid : String) :
    (validateAll cs ws ts).filter (isOverWarnP wid) =
      (validateOverloadedWorkers ws).filter (isOverWarnP wid) := by
  unfold validateAll validateDuplicateIDs validateOutOfRangeValues
    validateCircularCoRuns validatePhaseSlotSaturation validateConflictingRules
    validateSkillCoverage validateMaxConcurrency validateUnknownReferences
  simp only [List.filter_append, List.append_nil, List.filter_nil]
  rw [filter_eq_nil_of_false (fun e (he : e ∈ validateMissingColumns cs) =>
      isOverWarnP_false_of_entity (by simp [(mem_validateMissingColumns he).1])),
    filter_eq_nil_of_false (fun e (he : e ∈ dupAux dupClientErr Client.ClientID [] cs) => by
      obtain ⟨i, rfl⟩ := mem_dupAux he
      simp [isOverWarnP, dupClientErr]),
    filter_eq_nil_of_false (fun e (he : e ∈ dupAux dupWorkerErr Worker.WorkerID [] ws) => by
      obtain ⟨i, rfl⟩ := mem_dupAux he
      simp [isOverWarnP, dupWorkerErr]),
    filter_eq_nil_of_false (fun e (he : e ∈ dupAux dupTaskErr Task.TaskID [] ts) => by
      obtain ⟨i, rfl⟩ := mem_dupAux he
      simp [isOverWarnP, dupTaskErr]),
    filter_eq_nil_of_false (fun e (he : e ∈ validateMalformedLists ws) =>
      isOverWarnP_false_of_error (mem_validateMalformedLists he).2.2),
    filter_eq_nil_of_false (fun e (he : e ∈ rangeClients cs) =>
      isOverWarnP_false_of_entity (by simp [(mem_rangeClients he).1])),
    filter_eq_nil_of_false (fun e (he : e ∈ rangeTasks ts) =>
      isOverWarnP_false_of_entity (by simp [(mem_rangeTasks he).1])),
    filter_eq_nil_of_false (fun e (he : e ∈ validateBrokenJSON cs) =>
      isOverWarnP_false_of_entity (by simp [(mem_validateBrokenJSON he).1])),
    filter_eq_nil_of_false (fun e (he : e ∈ unknownRefsAux (ts.map Task.TaskID) cs) => by
      obtain ⟨c, _, tid, _, rfl⟩ := mem_unknownRefsAux he
      simp [isOverWarnP, unknownRefErr]),
    filter_eq_nil_of_false (fun e (he : e ∈ skillCovAux (allWorkerSkills ws) ts) =>
      isOverWarnP_false_of_entity (by simp [(mem_skillCovAux he).1])),
    filter_eq_nil_of_false (fun e (he : e ∈ maxConcAux ws ts) =>
      isOverWarnP_false_of_entity (by simp [(mem_maxConcAux he).1]))]
  simp

/-- C7.  For a worker (unique in the collection by its `WorkerID`) whose
`AvailableSlots` parses as an array, `validateAll` emits exactly one overload
warning for it when the array is shorter than its `MaxLoadPerPhase`, and none
otherwise. -/
theorem validateAll_overload_warning_count (cs : List Client) (ws : List Worker)
    (ts : List Task) (w : Worker) (l : List Json)
    (hw : ws.filter (fun v => v.WorkerID == w.WorkerID) = [w])
    (hp : jsonParse w.AvailableSlots = some (.arr l)) :
    ((validateAll cs ws ts).filter (isOverWarnP w.WorkerID)).length =
      if (l.length : Int) < w.MaxLoadPerPhase then 1 else 0 := by
  rw [validateAll_filter_overload, validateOverloadedWorkers_filter_length,
    ← List.filter_filter, hw]
  by_cases h : (l.length : Int) < w.MaxLoadPerPhase <;>
    simp [List.filter, slotsShortB, hp, h]

/-- Witness for C7: `AvailableSlots "[1,2]"` with `MaxLoadPerPhase 3` yields
exactly one overload warning; `"[1,2,3,4]"` with `MaxLoadPerPhase 3` yields
none. -/
theorem validateAll_overload_warning_count_witness :
    ((validateAll [] [⟨"W1", "Alice", "js", "[1,2]", 3, "G", 1⟩] []).filter
        (isOverWarnP "W1")).length = 1 ∧
    ((validateAll [] [⟨"W2", "Bob", "js", "[1,2,3,4]", 3, "G", 1⟩] []).filter
        (isOverWarnP "W2")).length = 0 :=
  ⟨(validateAll_overload_warning_count [] [⟨"W1", "Alice", "js", "[1,2]", 3, "G", 1⟩] []
      ⟨"W1", "Alice", "js", "[1,2]", 3, "G", 1⟩ [.num 1, .num 2] rfl rfl).trans
     (by norm_num),
   (validateAll_overload_warning_count [] [⟨"W2", "Bob", "js", "[1,2,3,4]", 3, "G", 1⟩] []
      ⟨"W2", "Bob", "js", "[1,2,3,4]", 3, "G", 1⟩ [.num 1, .num 2, .num 3, .num 4] rfl rfl).trans
     (by norm_num)⟩

theorem validateMalformedLists_append (xs ys : List Worker) :
    validateMalformedLists (xs ++ ys) =
      validateMalformedLists xs ++ validateMalformedLists ys := by
  induction xs with
  | nil => rfl
  | cons x xs ih => simp [validateMalformedLists, ih]

theorem validateOverloadedWorkers_append (xs ys : List Worker) :
    validateOverloadedWorkers (xs ++ ys) =
      validateOverloadedWorkers xs ++ validateOverloadedWorkers ys := by
  induction xs with
  | nil => rfl
  | cons x xs ih => simp [validateOverloadedWorkers, ih]

/-- C9.  A worker whose `AvailableSlots` does not parse as JSON is skipped by
the overload check — no warning, whatever its `MaxLoadPerPhase` — while the
malformed-list check reports it with exactly one `invalid-slots` error. -/
theorem overload_skips_malformed_slots (ws1 ws2 : List Worker) (w : Worker)
    (h : jsonParse w.AvailableSlots = none) :
    validateOverloadedWorkers (ws1 ++ w :: ws2) =
      validateOverloadedWorkers ws1 ++ validateOverloadedWorkers ws2 ∧
    validateMalformedLists (ws1 ++ w :: ws2) =
      validateMalformedLists ws1 ++ invalidSlotsErr w :: validateMalformedLists ws2 ∧
    (invalidSlotsErr w).id = "invalid-slots-" ++ w.WorkerID ∧
    (invalidSlotsErr w).type = .error ∧
    (invalidSlotsErr w).field = some "AvailableSlots" := by
  refine ⟨?_, ?_, rfl, rfl, rfl⟩
  · rw [validateOverloadedWorkers_append]
    simp [validateOverloadedWorkers, overloadedErrsFor, h]
  · rw [validateMalformedLists_append]
    simp [validateMalformedLists, malformedErrsFor, h]

/-- Witness for C9 at a worker whose slots string is not JSON. -/
theorem overload_skips_malformed_slots_witness :
    validateOverloadedWorkers ([] ++ ⟨"W7", "N", "s", "oops", 5, "G", 1⟩ :: []) =
      validateOverloadedWorkers [] ++ validateOverloadedWorkers [] ∧
    validateMalformedLists ([] ++ ⟨"W7", "N", "s", "oops", 5, "G", 1⟩ :: []) =
      validateMalformedLists [] ++
        invalidSlotsErr ⟨"W7", "N", "s", "oops", 5, "G", 1⟩ :: validateMalformedLists [] ∧
    (invalidSlotsErr ⟨"W7", "N", "s", "oops", 5, "G", 1⟩).id = "invalid-slots-" ++ "W7" ∧
    (invalidSlotsErr ⟨"W7", "N", "s", "oops", 5, "G", 1⟩).type = .error ∧
    (invalidSlotsErr ⟨"W7", "N", "s", "oops", 5, "G", 1⟩).field = some "AvailableSlots" :=
  overload_skips_malformed_slots [] [] ⟨"W7", "N", "s", "oops", 5, "G", 1⟩ rfl

/-- C3.  `validateAll` is total by construction (every fallible parse is an
`Option` whose `none` case the checks handle), and a record whose
`AvailableSlots` cannot be parsed only contributes its own error entries:
the full 12-check pipeline still runs, the malformed record adds exactly one
`invalid-slots` error carrying its own `WorkerID`, and every other record of
the dataset is still validated on both sides of it. -/
theorem validateAll_total_and_local (cs : List Client) (ws1 ws2 : List Worker)
    (ts : List Task) (b : Worker)
    (h : jsonParse b.AvailableSlots = none) :
    validateAll cs (ws1 ++ b :: ws2) ts =
      validateMissingColumns cs ++
        validateDuplicateIDs cs (ws1 ++ b :: ws2) ts ++
        (validateMalformedLists ws1 ++ invalidSlotsErr b :: validateMalformedLists ws2) ++
        validateOutOfRangeValues cs ts ++
        validateBrokenJSON cs ++
        validateUnknownReferences cs ts ++
        validateCircularCoRuns ++
        (validateOverloadedWorkers ws1 ++ validateOverloadedWorkers ws2) ++
        validatePhaseSlotSaturation ++
        validateSkillCoverage (ws1 ++ b :: ws2) ts ++
        validateMaxConcurrency (ws1 ++ b :: ws2) ts ++
        validateConflictingRules ∧
    (invalidSlotsErr b).entity = .worker ∧
    (invalidSlotsErr b).entityId = b.WorkerID := by
  refine ⟨?_, rfl, rfl⟩
  unfold validateAll
  rw [validateMalformedLists_append, validateOverloadedWorkers_append]
  simp [validateMalformedLists, validateOverloadedWorkers, malformedErrsFor,
    overloadedErrsFor, h]

/-- Witness for C3 with a malformed worker between two well-formed ones. -/
theorem validateAll_total_and_local_witness :
    validateAll [] ([⟨"W1", "A", "s", "[1]", 1, "G", 1⟩] ++
        ⟨"W8", "B", "s", "[1,2", 2, "G", 1⟩ :: [⟨"W2", "C", "s", "[2]", 1, "G", 1⟩]) [] =
      validateMissingColumns [] ++
        validateDuplicateIDs [] ([⟨"W1", "A", "s", "[1]", 1, "G", 1⟩] ++
          ⟨"W8", "B", "s", "[1,2", 2, "G", 1⟩ :: [⟨"W2", "C", "s", "[2]", 1, "G", 1⟩]) [] ++
        (validateMalformedLists [⟨"W1", "A", "s", "[1]", 1, "G", 1⟩] ++
          invalidSlotsErr ⟨"W8", "B", "s", "[1,2", 2, "G", 1⟩ ::
            validateMalformedLists [⟨"W2", "C", "s", "[2]", 1, "G", 1⟩]) ++
        validateOutOfRangeValues [] [] ++
        validateBrokenJSON [] ++
        validateUnknownReferences [] [] ++
        validateCircularCoRuns ++
        (validateOverloadedWorkers [⟨"W1", "A", "s", "[1]", 1, "G", 1⟩] ++
          validateOverloadedWorkers [⟨"W2", "C", "s", "[2]", 1, "G", 1⟩]) ++
        validatePhaseSlotSaturation ++
        validateSkillCoverage ([⟨"W1", "A", "s", "[1]", 1, "G", 1⟩] ++
          ⟨"W8", "B", "s", "[1,2", 2, "G", 1⟩ :: [⟨"W2", "C", "s", "[2]", 1, "G", 1⟩]) [] ++
        validateMaxConcurrency ([⟨"W1", "A", "s", "[1]", 1, "G", 1⟩] ++
          ⟨"W8", "B", "s", "[1,2", 2, "G", 1⟩ :: [⟨"W2", "C", "s", "[2]", 1, "G", 1⟩]) [] ++
        validateConflictingRules ∧
    (invalidSlotsErr ⟨"W8", "B", "s", "[1,2", 2, "G", 1⟩).entity = .worker ∧
    (invalidSlotsErr ⟨"W8", "B", "s", "[1,2", 2, "G", 1⟩).entityId = "W8" :=
  validateAll_total_and_local [] [⟨"W1", "A", "s", "[1]", 1, "G", 1⟩]
    [⟨"W2", "C", "s", "[2]", 1, "G", 1⟩] [] ⟨"W8", "B", "s", "[1,2", 2, "G", 1⟩ rfl

/-! ## Unknown task references (C8) -/

theorem str_append_right_inj (a : String) {b c : String} :
    a ++ b = a ++ c ↔ b = c := by
  constructor
  · intro h
    have hd := congrArg String.data h
    simp only [String.data_append] at hd
    exact String.ext (List.append_cancel_left hd)
  · intro h
    rw [h]

/-- Structural signature of an unknown-reference error for client `cid` and
task id `tid`: among all checks only the unknown-reference check emits a
client error on field `RequestedTaskIDs`, and its message pins the
referenced task id. -/
def isUnknownP (cid tid : String) (e : ValidationError) : Bool :=
  decide (e.entity = .client ∧ e.field = some "RequestedTaskIDs" ∧
    e.entityId = cid ∧ e.message = "Unknown TaskID referenced: " ++ tid)

theorem isUnknownP_unknownRefErr (cid tid cid' tid' : String) :
    isUnknownP cid tid (unknownRefErr cid' tid') = (cid' == cid && tid' == tid) := by
  have hm : ("Unknown TaskID referenced: " ++ tid' = "Unknown TaskID referenced: " ++ tid)
      ↔ tid' = tid := str_append_right_inj _
  by_cases h1 : cid' = cid <;> by_cases h2 : tid' = tid <;>
    simp [isUnknownP, unknownRefErr, h1, h2, hm]

theorem unknownErrsList_filter_length (taskIds : List String) (cid tid : String)
    (hni : taskIds.contains tid = false) :
    ∀ l : List String,
      ((unknownErrsList taskIds cid l).filter (isUnknownP cid tid)).length = l.count tid := by
  intro l
  induction l with
  | nil => rfl
  | cons x xs ih =>
    simp only [unknownErrsList, List.filter_append, List.length_append, ih,
      List.count_cons]
    by_cases hx : x = tid
    · subst hx
      have hni' : x ∉ taskIds := by simpa using hni
      simp [hni', isUnknownP_unknownRefErr]
      omega
    · cases hc : taskIds.contains x <;>
        simp [hc, isUnknownP_unknownRefErr, hx]

theorem unknownErrsList_filter_nil (taskIds : List String) {cid cid' : String}
    (tid : String) (hne : cid' ≠ cid) (l : List String) :
    (unknownErrsList taskIds cid' l).filter (isUnknownP cid tid) = [] := by
  refine filter_eq_nil_of_false fun e he => ?_
  obtain ⟨tid', _, _, rfl⟩ := mem_unknownErrsList he
  simp [isUnknownP_unknownRefErr, hne]

theorem unknownRefsAux_filter_length (taskIds : List String) (cid tid : String)
    (hni : taskIds.contains tid = false) :
    ∀ cs : List Client,
      ((unknownRefsAux taskIds cs).filter (isUnknownP cid tid)).length =
        ((cs.filter fun c => c.ClientID == cid).map fun c =>
          if c.RequestedTaskIDs = "" then 0
          else (splitTrim c.RequestedTaskIDs).count tid).sum := by
  intro cs
  induction cs with
  | nil => rfl
  | cons c cs ih =>
    simp only [unknownRefsAux, List.filter_append, List.length_append, ih,
      List.filter_cons]
    by_cases hc : c.ClientID = cid
    · simp only [hc, beq_self_eq_true, if_pos, List.map_cons, List.sum_cons]
      unfold unknownErrsFor
      by_cases hr : c.RequestedTaskIDs = ""
      · simp [hr]
      · rw [if_neg hr, if_neg hr, hc, unknownErrsList_filter_length taskIds cid tid hni]
    · have hb : (c.ClientID == cid) = false := by simp [hc]
      rw [hb]
      simp only [Bool.false_eq_true, if_false]
      unfold unknownErrsFor
      by_cases hr : c.RequestedTaskIDs = ""
      · simp [hr]
      · rw [if_neg hr, unknownErrsList_filter_nil taskIds tid hc]
        simp

theorem isUnknownP_false_of_field {cid tid : String} {e : ValidationError}
    (h : e.field ≠ some "RequestedTaskIDs") : isUnknownP cid tid e = false := by
  simp [isUnknownP, h]

theorem mem_validateMissingColumns_field {cs : List Client} {e : ValidationError}
    (h : e ∈ validateMissingColumns cs) :
    e.field = some "ClientID" ∨ e.field = some "ClientName" ∨
      e.field = some "PriorityLevel" := by
  induction cs with
  | nil => simp [validateMissingColumns] at h
  | cons c cs ih =>
    simp only [validateMissingColumns, List.mem_append] at h
    rcases h with h | h
    · unfold missingErrsFor at h
      simp only [List.mem_append] at h
      rcases h with (h | h) | h <;> split at h <;> simp_all
    · exact ih h

/-- Filtering a `validateAll` result on the unknown-reference signature keeps
exactly the unknown-reference check. -/
theorem validateAll_filter_unknown (cs : List Client) (ws : List Worker)
    (ts : List Task) (cid tid : String) :
    (validateAll cs ws ts).filter (isUnknownP cid tid) =
      (unknownRefsAux (ts.map Task.TaskID) cs).filter (isUnknownP cid tid) := by
  unfold validateAll validateDuplicateIDs validateOutOfRangeValues
    validateCircularCoRuns validatePhaseSlotSaturation validateConflictingRules
    validateSkillCoverage validateMaxConcurrency validateUnknownReferences
  simp only [List.filter_append, List.append_nil, List.filter_nil]
  rw [filter_eq_nil_of_false (fun e (he : e ∈ validateMissingColumns cs) =>
      isUnknownP_false_of_field (by rcases mem_validateMissingColumns_field he with h | h | h <;> simp [h])),
    filter_eq_nil_of_false (fun e (he : e ∈ dupAux dupClientErr Client.ClientID [] cs) => by
      obtain ⟨i, rfl⟩ := mem_dupAux he
      exact isUnknownP_false_of_field (by simp [dupClientErr])),
    filter_eq_nil_of_false (fun e (he : e ∈ dupAux dupWorkerErr Worker.WorkerID [] ws) => by
      obtain ⟨i, rfl⟩ := mem_dupAux he
      exact isUnknownP_false_of_field (by simp [dupWorkerErr])),
    filter_eq_nil_of_false (fun e (he : e ∈ dupAux dupTaskErr Task.TaskID [] ts) => by
      obtain ⟨i, rfl⟩ := mem_dupAux he
      exact isUnknownP_false_of_field (by simp [dupTaskErr])),
    filter_eq_nil_of_false (fun e (he : e ∈ validateMalformedLists ws) =>
      isUnknownP_false_of_field (by simp [(mem_validateMalformedLists he).2.1])),
    filter_eq_nil_of_false (fun e (he : e ∈ rangeClients cs) =>
      isUnknownP_false_of_field (by simp [(mem_rangeClients he).2.1])),
    filter_eq_nil_of_false (fun e (he : e ∈ rangeTasks ts) =>
      isUnknownP_false_of_field (by simp [(mem_rangeTasks he).2.1])),
    filter_eq_nil_of_false (fun e (he : e ∈ validateBrokenJSON cs) =>
      isUnknownP_false_of_field (by simp [(mem_validateBrokenJSON he).2.1])),
    filter_eq_nil_of_false (fun e (he : e ∈ validateOverloadedWorkers ws) =>
      isUnknownP_false_of_field (by simp [(mem_validateOverloadedWorkers he).2.1])),
    filter_eq_nil_of_false (fun e (he : e ∈ skillCovAux (allWorkerSkills ws) ts) =>
      isUnknownP_false_of_field (by simp [(mem_skillCovAux he).2.1])),
    filter_eq_nil_of_false (fun e (he : e ∈ maxConcAux ws ts) =>
      isUnknownP_false_of_field (by simp [(mem_maxConcAux he).2.1]))]
  simp

/-- C8 (amended).  For a client (unique by `ClientID`) and a task id absent
from the task collection, `validateAll` emits one unknown-reference error per
occurrence of that id in the comma-split trimmed `RequestedTaskIDs` — so
exactly one when it is listed once — and none at all when `RequestedTaskIDs`
is the empty string, which the check skips as falsy. -/
theorem validateAll_unknown_ref_count (cs : List Client) (ws : List Worker)
    (ts : List Task) (c : Client) (tid : String)
    (hc : cs.filter (fun x => x.ClientID == c.ClientID) = [c])
    (ht : (ts.map Task.TaskID).contains tid = false) :
    ((validateAll cs ws ts).filter (isUnknownP c.ClientID tid)).length =
      if c.RequestedTaskIDs = "" then 0
      else (splitTrim c.RequestedTaskIDs).count tid := by
  rw [validateAll_filter_unknown, unknownRefsAux_filter_length _ _ _ ht, hc]
  simp

/-- Witness for C8: a client requesting the nonexistent `T999` once gets
exactly one unknown-reference error. -/
theorem validateAll_unknown_ref_count_witness :
    ((validateAll [⟨"C1", "N", 5, "T999", "", ""⟩]
        [] [⟨"T001", "A", "c", 1, "s", "", 1⟩]).filter (isUnknownP "C1" "T999")).length = 1 :=
  (validateAll_unknown_ref_count [⟨"C1", "N", 5, "T999", "", ""⟩] []
      [⟨"T001", "A", "c", 1, "s", "", 1⟩] ⟨"C1", "N", 5, "T999", "", ""⟩ "T999"
      rfl rfl).trans (by decide)

/-- Counterexample to C8 as stated: a client listing `T999` twice gets two
unknown-reference errors referencing `T999`, not exactly one. -/
theorem validateAll_unknown_ref_duplicated :
    "T999" ∈ splitTrim "T999,T999" ∧
    ((validateAll [⟨"C1", "N", 5, "T999,T999", "", ""⟩] [] []).filter
      (isUnknownP "C1" "T999")).length = 2 :=
  ⟨by decide, by decide⟩

/-! ## Grouping-map lemmas (C4) -/

theorem lookupG_addToGroups {β : Type} (k k' : String) (v : β)
    (l : List (String × List β)) :
    lookupG k' (addToGroups k v l) =
      if k' = k then some ((lookupG k l).getD [] ++ [v]) else lookupG k' l := by
  induction l with
  | nil =>
    simp only [addToGroups, lookupG, Option.getD_none, List.nil_append]
    by_cases h : k = k'
    · rw [if_pos h, if_pos h.symm]
    · rw [if_neg h, if_neg (fun he => h he.symm)]
  | cons p l ih =>
    obtain ⟨k0, vs⟩ := p
    by_cases h0 : k0 = k
    · rw [addToGroups, if_pos h0]
      by_cases h1 : k0 = k'
      · have hk : k' = k := h1 ▸ h0
        rw [lookupG, if_pos h1, if_pos hk, lookupG, if_pos h0]
        simp
      · have hk : ¬ (k' = k) := fun he => h1 (h0.trans he.symm)
        rw [lookupG, if_neg h1, if_neg hk, lookupG, if_neg h1]
    · rw [addToGroups, if_neg h0]
      by_cases h1 : k0 = k'
      · have hk : ¬ (k' = k) := fun he => h0 (h1.trans he)
        rw [lookupG, if_pos h1, if_neg hk, lookupG, if_pos h1]
      · rw [lookupG, if_neg h1, ih, lookupG, if_neg h0, lookupG, if_neg h1]

theorem keys_addToGroups {β : Type} (k : String) (v : β) (l : List (String × List β)) :
    (addToGroups k v l).map Prod.fst =
      if k ∈ l.map Prod.fst then l.map Prod.fst else l.map Prod.fst ++ [k] := by
  induction l with
  | nil => simp [addToGroups]
  | cons p l ih =>
    obtain ⟨k0, vs⟩ := p
    by_cases h0 : k0 = k
    · subst h0
      simp [addToGroups]
    · rw [addToGroups, if_neg h0]
      simp only [List.map_cons, ih]
      by_cases hm : k ∈ l.map Prod.fst
      · rw [if_pos hm, if_pos (List.mem_cons_of_mem k0 hm)]
      · rw [if_neg hm, if_neg (by
          intro hc
          rcases List.mem_cons.mp hc with he | hm2
          · exact h0 he.symm
          · exact hm hm2)]
        rfl

theorem keys_nodup_addToGroups {β : Type} {k : String} {v : β}
    {l : List (String × List β)} (h : (l.map Prod.fst).Nodup) :
    ((addToGroups k v l).map Prod.fst).Nodup := by
  rw [keys_addToGroups]
  split
  · exact h
  · next hk => simp [List.nodup_append, h, hk]

theorem lookupG_mem {β : Type} {k : String} {vs : List β} :
    ∀ {l : List (String × List β)}, lookupG k l = some vs → (k, vs) ∈ l := by
  intro l
  induction l with
  | nil => intro h; simp [lookupG] at h
  | cons p l ih =>
    intro h
    obtain ⟨k0, vs0⟩ := p
    by_cases h0 : k0 = k
    · subst h0
      simp [lookupG] at h
      simp [h]
    · rw [lookupG, if_neg h0] at h
      exact List.mem_cons_of_mem _ (ih h)

theorem mem_lookupG_of_nodup {β : Type} :
    ∀ {l : List (String × List β)}, (l.map Prod.fst).Nodup →
      ∀ {p : String × List β}, p ∈ l → lookupG p.1 l = some p.2 := by
  intro l
  induction l with
  | nil => intro _ p hp; simp at hp
  | cons q l ih =>
    intro hn p hp
    obtain ⟨k0, vs0⟩ := q
    simp only [List.map_cons, List.nodup_cons] at hn
    rcases List.mem_cons.mp hp with h | h
    · subst h
      simp [lookupG]
    · have hne : k0 ≠ p.1 := by
        intro he
        exact hn.1 (he ▸ List.mem_map_of_mem Prod.fst h)
      rw [lookupG, if_neg hne]
      exact ih hn.2 h

theorem lookupG_foldGroups {α β : Type} (key : α → String) (val : α → β) :
    ∀ (l : List α) (acc : List (String × List β)) (k : String),
      lookupG k (l.foldl (fun a x => addToGroups (key x) (val x) a) acc) =
        match lookupG k acc with
        | some vs => some (vs ++ (l.filter fun x => key x == k).map val)
        | none =>
          if (l.filter fun x => key x == k).isEmpty then none
          else some ((l.filter fun x => key x == k).map val) := by
  intro l
  induction l with
  | nil =>
    intro acc k
    cases hacc : lookupG k acc <;> simp [hacc]
  | cons x l ih =>
    intro acc k
    simp only [List.foldl_cons]
    rw [ih, lookupG_addToGroups]
    simp only [List.filter_cons]
    by_cases hk : key x = k
    · subst hk
      simp only [if_pos rfl, beq_self_eq_true, if_true]
      cases hacc : lookupG (key x) acc with
      | some vs => simp [hacc]
      | none => simp [hacc]
    · have h1 : ¬ (k = key x) := fun he => hk he.symm
      have hb : (key x == k) = false := by simp [hk]
      simp only [if_neg h1, hb, Bool.false_eq_true, if_false]

theorem keys_nodup_foldGroups {α β : Type} (key : α → String) (val : α → β) :
    ∀ (l : List α) (acc : List (String × List β)),
      (acc.map Prod.fst).Nodup →
      ((l.foldl (fun a x => addToGroups (key x) (val x) a) acc).map Prod.fst).Nodup := by
  intro l
  induction l with
  | nil => intro acc h; exact h
  | cons x l ih =>
    intro acc h
    exact ih _ (keys_nodup_addToGroups h)

/-- Every group of `taskGroupPairs` is exactly the (ordered) list of task
IDs whose skill key equals the group's key. -/
theorem taskGroupPairs_char {ts : List Task} :
    ∀ p ∈ taskGroupPairs ts,
      p.2 = (ts.filter fun t => skillKey t == p.1).map Task.TaskID := by
  intro p hp
  have hn : ((taskGroupPairs ts).map Prod.fst).Nodup :=
    keys_nodup_foldGroups skillKey Task.TaskID ts [] (by simp)
  have hl := mem_lookupG_of_nodup hn hp
  rw [show taskGroupPairs ts =
      ts.foldl (fun a x => addToGroups (skillKey x) (Task.TaskID x) a) [] from rfl,
    lookupG_foldGroups] at hl
  simp only [lookupG] at hl
  split at hl
  · exact absurd hl (by simp)
  · exact (Option.some.injEq _ _ ▸ hl).symm

/-- Every task contributes a group holding all task IDs with its skill
key. -/
theorem taskGroupPairs_exists {ts : List Task} {t : Task} (ht : t ∈ ts) :
    (skillKey t, (ts.filter fun u => skillKey u == skillKey t).map Task.TaskID)
      ∈ taskGroupPairs ts := by
  apply lookupG_mem
  rw [show taskGroupPairs ts =
      ts.foldl (fun a x => addToGroups (skillKey x) (Task.TaskID x) a) [] from rfl,
    lookupG_foldGroups]
  simp only [lookupG]
  have hne : (ts.filter fun u => skillKey u == skillKey t) ≠ [] :=
    List.ne_nil_of_mem (List.mem_filter.mpr ⟨ht, by simp⟩)
  rw [if_neg (by simp [List.isEmpty_iff, hne])]

theorem mem_analyzeTaskPatterns {ts : List Task} {g : TaskGroup} :
    g ∈ analyzeTaskPatterns ts ↔
      ∃ p ∈ taskGroupPairs ts, 1 < p.2.length ∧
        g = ⟨p.2, splitChar '|' p.1,
          min (9/10 : ℚ) (1/2 + (p.2.length : ℚ) * (1/10))⟩ := by
  unfold analyzeTaskPatterns
  rw [List.mem_filterMap]
  constructor
  · rintro ⟨p, hp, hf⟩
    split at hf
    · next hlen => exact ⟨p, hp, hlen, (Option.some.injEq _ _ ▸ hf).symm⟩
    · simp at hf
  · rintro ⟨p, hp, hlen, rfl⟩
    exact ⟨p, hp, by rw [if_pos hlen]⟩

theorem filterMap_if_all {α β : Type} (f : α → β) (p : α → Prop) [DecidablePred p]
    (l : List α) (h : ∀ a ∈ l, p a) :
    (l.filterMap fun a => if p a then some (f a) else none) = l.map f := by
  induction l with
  | nil => rfl
  | cons x xs ih =>
    rw [List.filterMap_cons, if_pos (h x (List.mem_cons_self x xs))]
    rw [List.map_cons, ih fun a ha => h a (List.mem_cons_of_mem x ha)]

theorem analyzeTaskPatterns_two_le {ts : List Task} {g : TaskGroup}
    (hg : g ∈ analyzeTaskPatterns ts) : 2 ≤ g.tasks.length := by
  obtain ⟨p, _, hlen, rfl⟩ := mem_analyzeTaskPatterns.mp hg
  simpa using hlen

/-- Every group of `analyzeTaskPatterns` is the ordered task-ID list of a
skill-key equivalence class of size at least two, with the advertised
confidence formula. -/
theorem analyzeTaskPatterns_char {ts : List Task} {g : TaskGroup}
    (hg : g ∈ analyzeTaskPatterns ts) :
    ∃ k, 2 ≤ g.tasks.length ∧
      g.tasks = (ts.filter fun t => skillKey t == k).map Task.TaskID ∧
      g.confidence = min (9/10 : ℚ) (1/2 + (g.tasks.length : ℚ) * (1/10)) := by
  obtain ⟨p, hp, hlen, rfl⟩ := mem_analyzeTaskPatterns.mp hg
  exact ⟨p.1, by simpa using hlen, taskGroupPairs_char p hp, rfl⟩

theorem mem_genRecs_iff {now : Nat} {cs : List Client} {ws : List Worker}
    {ts : List Task} {r : AIRuleRecommendation} :
    r ∈ generateRuleRecommendations now cs ws ts ↔
      r ∈ ((analyzeTaskPatterns ts).filterMap fun g =>
          if 1 < g.tasks.length then some (mkCoRunRec now g) else none) ++
        (analyzeWorkerOverload ws).map (mkLoadRec now) ++
        (analyzeSkillGaps ts ws).map (mkSkillRec now) := by
  unfold generateRuleRecommendations
  exact (List.perm_insertionSort recGeR _).mem_iff

/-- Every `coRun` recommendation of `generateRuleRecommendations` is built
from a group of `analyzeTaskPatterns`. -/
theorem genRecs_coRun_mem {now : Nat} {cs : List Client} {ws : List Worker}
    {ts : List Task} {r : AIRuleRecommendation}
    (hr : r ∈ generateRuleRecommendations now cs ws ts) (ht : r.type = .coRun) :
    ∃ g ∈ analyzeTaskPatterns ts, r = mkCoRunRec now g := by
  rw [mem_genRecs_iff] at hr
  rcases List.mem_append.mp hr with hr | hr
  · rcases List.mem_append.mp hr with hr | hr
    · obtain ⟨g, hg, hf⟩ := List.mem_filterMap.mp hr
      split at hf
      · exact ⟨g, hg, (Option.some.injEq _ _ ▸ hf).symm⟩
      · simp at hf
    · obtain ⟨g, _, rfl⟩ := List.mem_map.mp hr
      simp [mkLoadRec] at ht
  · obtain ⟨g, _, rfl⟩ := List.mem_map.mp hr
    simp [mkSkillRec] at ht

/-- Per chosen task-ID list, `generateRuleRecommendations` holds exactly as
many `coRun` recommendations over that list as `analyzeTaskPatterns` holds
groups with that list. -/
theorem genRecs_coRun_filter_count (now : Nat) (cs : List Client) (ws : List Worker)
    (ts : List Task) (l : List String) :
    ((generateRuleRecommendations now cs ws ts).filter fun r =>
        r.type == RuleType.coRun && r.params == RecParams.tasksOf l).length =
      ((analyzeTaskPatterns ts).filter fun g => g.tasks == l).length := by
  unfold generateRuleRecommendations
  rw [((List.perm_insertionSort recGeR _).filter _).length_eq]
  simp only [List.filter_append, List.length_append]
  rw [filterMap_if_all (mkCoRunRec now) (fun g => 1 < g.tasks.length) _
      (fun g hg => by have := analyzeTaskPatterns_two_le hg; omega),
    List.filter_map,
    filter_eq_nil_of_false (fun r (hr : r ∈ (analyzeWorkerOverload ws).map (mkLoadRec now)) => by
      obtain ⟨g, _, rfl⟩ := List.mem_map.mp hr
      simp [mkLoadRec]),
    filter_eq_nil_of_false (fun r (hr : r ∈ (analyzeSkillGaps ts ws).map (mkSkillRec now)) => by
      obtain ⟨g, _, rfl⟩ := List.mem_map.mp hr
      simp [mkSkillRec])]
  have hcong : ∀ g ∈ analyzeTaskPatterns ts,
      ((fun r => r.type == RuleType.coRun && r.params == RecParams.tasksOf l) ∘
        mkCoRunRec now) g = (fun g : TaskGroup => g.tasks == l) g := by
    intro g _
    by_cases h : g.tasks = l <;> simp [mkCoRunRec, Function.comp, h]
  rw [List.filter_congr hcong, List.length_map]
  simp

theorem conf_ge_half (n : ℕ) :
    (1/2 : ℚ) ≤ min (9/10 : ℚ) (1/2 + (n : ℚ) * (1/10)) := by
  apply le_min (by norm_num)
  have h : (0:ℚ) ≤ (n : ℚ) * (1/10) := by positivity
  linarith

/-- Two tasks at distinct positions with equal sorted-trimmed skill lists end
up in one `coRun` recommendation of confidence at least `1/2`. -/
theorem genRecs_pair_grouped (now : Nat) (cs : List Client) (ws : List Worker)
    (ts : List Task) (t1 t2 : Task) (l1 l2 l3 : List Task)
    (hts : ts = l1 ++ t1 :: l2 ++ t2 :: l3)
    (hsk : sortedSkills t1 = sortedSkills t2) :
    ∃ r ∈ generateRuleRecommendations now cs ws ts, r.type = .coRun ∧
      ∃ tl, r.params = .tasksOf tl ∧ t1.TaskID ∈ tl ∧ t2.TaskID ∈ tl ∧
        (1/2 : ℚ) ≤ r.confidence := by
  have hk : skillKey t2 = skillKey t1 := by unfold skillKey; rw [hsk]
  have ht1 : t1 ∈ ts := by rw [hts]; simp
  have ht2 : t2 ∈ ts := by rw [hts]; simp
  have hp := taskGroupPairs_exists ht1
  have hlen : 2 ≤ ((ts.filter fun u => skillKey u == skillKey t1).map Task.TaskID).length := by
    rw [List.length_map, hts]
    simp only [List.filter_append, List.filter_cons, beq_self_eq_true, if_true, hk,
      List.length_append, List.length_cons]
    omega
  refine ⟨mkCoRunRec now
      ⟨(ts.filter fun u => skillKey u == skillKey t1).map Task.TaskID,
        splitChar '|' (skillKey t1),
        min (9/10 : ℚ)
          (1/2 + (((ts.filter fun u => skillKey u == skillKey t1).map Task.TaskID).length : ℚ)
            * (1/10))⟩,
    ?_, rfl, (ts.filter fun u => skillKey u == skillKey t1).map Task.TaskID,
    rfl, ?_, ?_, ?_⟩
  · rw [mem_genRecs_iff]
    refine List.mem_append.mpr (Or.inl (List.mem_append.mpr (Or.inl ?_)))
    refine List.mem_filterMap.mpr ⟨_,
      mem_analyzeTaskPatterns.mpr ⟨_, hp, by simpa using hlen, rfl⟩,
      by rw [if_pos (by simpa using hlen)]⟩
  · exact List.mem_map_of_mem Task.TaskID (List.mem_filter.mpr ⟨ht1, by simp⟩)
  · exact List.mem_map_of_mem Task.TaskID (List.mem_filter.mpr ⟨ht2, by simp [hk]⟩)
  · exact conf_ge_half _

/-- C4 (amended).  `generateRuleRecommendations` partitions tasks by the
sorted, trimmed LIST of their `RequiredSkills` — a multiset, duplicates
kept, order of listing irrelevant.  Every partition of size at least 2
yields exactly one `coRun` recommendation over its ordered task IDs with
confidence `min(0.9, 0.5 + 0.1 × groupSize)`; in particular two tasks with
identical sorted-trimmed skill lists, regardless of listed order, land in
one `coRun` recommendation with confidence at least `0.5`. -/
theorem genRecs_coRun_characterization (now : Nat) (cs : List Client) (ws : List Worker)
    (ts : List Task) (l : List String) (t1 t2 : Task) (l1 l2 l3 : List Task) :
    (((generateRuleRecommendations now cs ws ts).filter fun r =>
        r.type == RuleType.coRun && r.params == RecParams.tasksOf l).length =
      ((analyzeTaskPatterns ts).filter fun g => g.tasks == l).length) ∧
    (∀ r ∈ generateRuleRecommendations now cs ws ts, r.type = .coRun →
      ∃ g ∈ analyzeTaskPatterns ts, r.params = .tasksOf g.tasks ∧
        r.confidence = g.confidence) ∧
    (∀ g ∈ analyzeTaskPatterns ts, ∃ k, 2 ≤ g.tasks.length ∧
      g.tasks = (ts.filter fun t => skillKey t == k).map Task.TaskID ∧
      g.confidence = min (9/10 : ℚ) (1/2 + (g.tasks.length : ℚ) * (1/10))) ∧
    (ts = l1 ++ t1 :: l2 ++ t2 :: l3 → sortedSkills t1 = sortedSkills t2 →
      ∃ r ∈ generateRuleRecommendations now cs ws ts, r.type = .coRun ∧
        ∃ tl, r.params = .tasksOf tl ∧ t1.TaskID ∈ tl ∧ t2.TaskID ∈ tl ∧
          (1/2 : ℚ) ≤ r.confidence) := by
  refine ⟨genRecs_coRun_filter_count now cs ws ts l, ?_, ?_,
    genRecs_pair_grouped now cs ws ts t1 t2 l1 l2 l3⟩
  · intro r hr ht
    obtain ⟨g, hg, rfl⟩ := genRecs_coRun_mem hr ht
    exact ⟨g, hg, rfl, rfl⟩
  · intro g hg
    exact analyzeTaskPatterns_char hg

/-- Witness for C4: two tasks with skills `"a, b"` and `"b,a"` are grouped
into one `coRun` recommendation of confidence at least `1/2`. -/
theorem genRecs_coRun_characterization_witness :
    ∃ r ∈ generateRuleRecommendations 0 [] []
        [⟨"TA", "n", "c", 1, "a, b", "", 1⟩, ⟨"TB", "n", "c", 1, "b,a", "", 1⟩],
      r.type = .coRun ∧
      ∃ tl, r.params = .tasksOf tl ∧
        (⟨"TA", "n", "c", 1, "a, b", "", 1⟩ : Task).TaskID ∈ tl ∧
        (⟨"TB", "n", "c", 1, "b,a", "", 1⟩ : Task).TaskID ∈ tl ∧
        (1/2 : ℚ) ≤ r.confidence :=
  (genRecs_coRun_characterization 0 [] []
      [⟨"TA", "n", "c", 1, "a, b", "", 1⟩, ⟨"TB", "n", "c", 1, "b,a", "", 1⟩] []
      ⟨"TA", "n", "c", 1, "a, b", "", 1⟩ ⟨"TB", "n", "c", 1, "b,a", "", 1⟩
      [] [] []).2.2.2 rfl rfl

/-- Modelled from the spec: the sorted, trimmed SET of `RequiredSkills`
(duplicates collapsed — the spec says "treated as a set, not multiset"),
for comparison against the code's duplicate-keeping `sortedSkills`. -/
def specSkillSet (t : Task) : List String := (sortedSkills t).dedup

/-- Counterexample to C4 as stated: tasks with `RequiredSkills` `"a,a"` and
`"a"` have identical sorted-trimmed skill sets, yet the code keys groups on
the sorted list with duplicates kept, so they land in different partitions
and no `coRun` recommendation is produced at all. -/
theorem genRecs_multiset_not_set :
    specSkillSet ⟨"T1", "n", "c", 1, "a,a", "", 1⟩ =
      specSkillSet ⟨"T2", "n", "c", 1, "a", "", 1⟩ ∧
    ∀ r ∈ generateRuleRecommendations 0 [] []
        [⟨"T1", "n", "c", 1, "a,a", "", 1⟩, ⟨"T2", "n", "c", 1, "a", "", 1⟩],
      r.type ≠ RuleType.coRun := by
  refine ⟨rfl, ?_⟩
  intro r hr ht
  obtain ⟨g, hg, _⟩ := genRecs_coRun_mem hr ht
  rw [show analyzeTaskPatterns
      [⟨"T1", "n", "c", 1, "a,a", "", 1⟩, ⟨"T2", "n", "c", 1, "a", "", 1⟩] = [] from rfl] at hg
  exact absurd hg (List.not_mem_nil g)

end Alchemist

